import Mathlib

/-!
Verification of the ear-training core: melody comparator (LCS and positional),
progressive difficulty ladder, session statistics, and melody generator.

All code is shallowly embedded from the TypeScript sources. JavaScript numbers
are modelled as exact rationals (`ℚ`) or integers; `Math.round` is "round half
toward +infinity", i.e. `⌊x + 1/2⌋`; `Math.floor` is `Int.floor`. The `%`
operator on nonnegative operands agrees with `Int.tmod` (JS truncated
remainder), which we use where the source applies `%` directly to a pitch.
-/

/-- JS `Math.round`: round half toward positive infinity. -/
def jsRound (q : ℚ) : ℤ := ⌊q + 1/2⌋

/-- JS `Math.floor` on a rational. -/
def jsFloor (q : ℚ) : ℤ := ⌊q⌋

/-- Per-note comparison status (`NoteStatus` in `types/index.ts`). -/
inductive NoteStatus
  | correct
  | wrong
  | missing
  | extra
deriving DecidableEq, Repr

/-- Per-note timing feedback (`TimingStatus` in `types/index.ts`). -/
inductive TimingStatus
  | onTime
  | early
  | late
deriving DecidableEq, Repr

/-- A single melody note (`MelodyNote`): MIDI pitch plus optional duration in
beats (`undefined` duration means pitch-only mode). -/
structure MelodyNote where
  midi : ℤ
  duration : Option ℚ
deriving DecidableEq, Repr

/-- A melody is an ordered list of melody notes. -/
abbrev Melody := List MelodyNote

/-- A played note (`PlayedNote`): MIDI pitch and onset time in seconds. -/
structure PlayedNote where
  midi : ℤ
  time : ℚ
deriving DecidableEq, Repr

instance : Inhabited PlayedNote := ⟨⟨0, 0⟩⟩

/-- The comparator options object `{ rhythmMode: boolean; tempo: number }`. -/
structure CompareOptions where
  rhythmMode : Bool
  tempo : ℚ
deriving DecidableEq, Repr

/-- `ComparisonResult` from `types/index.ts`; absent optional fields are
`none`. -/
structure ComparisonResult where
  score : ℤ
  pitchScore : ℤ
  rhythmScore : Option ℤ
  targetMarks : List NoteStatus
  playedMarks : List NoteStatus
  timingMarks : Option (List TimingStatus)
deriving DecidableEq, Repr

/-- Fuel-driven evaluator for the LCS dynamic-programming table. Each
recursive call decreases the index sum by at least one, so any fuel
at least `i + j` computes the table exactly (see `lcsGo_fuel_irrel`);
the fuel makes the definition structurally recursive and executable. -/
def lcsGo (t p : List ℤ) : ℕ → ℕ → ℕ → ℕ
  | _, 0, _ => 0
  | _, _ + 1, 0 => 0
  | 0, _ + 1, _ + 1 => 0
  | fuel + 1, i + 1, j + 1 =>
    if t.getD i 0 = p.getD j 0 then lcsGo t p fuel i j + 1
    else max (lcsGo t p fuel i (j + 1)) (lcsGo t p fuel (i + 1) j)

/-- The LCS dynamic-programming table of the LCS comparator:
`lcsTable t p i j` is `dp[i][j]`, computed by the source recurrence
`dp[i][j] = (t[i-1] === p[j-1]) ? dp[i-1][j-1] + 1 : max(dp[i-1][j], dp[i][j-1])`
with zero borders (see `lcsTable_succ_succ`). -/
def lcsTable (t p : List ℤ) (i j : ℕ) : ℕ := lcsGo t p (i + j) i j

/-- Fuel-driven evaluator for the backtracking loop (same fuel device as
`lcsGo`). -/
def backtrackGo (t p : List ℤ) : ℕ → ℕ → ℕ → List (ℕ × ℕ)
  | _, 0, _ => []
  | _, _ + 1, 0 => []
  | 0, _ + 1, _ + 1 => []
  | fuel + 1, i + 1, j + 1 =>
    if t.getD i 0 = p.getD j 0 then (i, j) :: backtrackGo t p fuel i j
    else if lcsTable t p i (j + 1) > lcsTable t p (i + 1) j then backtrackGo t p fuel i (j + 1)
    else backtrackGo t p fuel (i + 1) j

/-- The backtracking loop of the LCS comparator. Starting from `(i, j)` it
emits the matched pairs `(targetIndex, playedIndex)` in the order the source
pushes them (descending); on equal pitches both pointers move, otherwise `i`
is decremented when `dp[i-1][j] > dp[i][j-1]` and `j` is decremented
otherwise (ties included). See `backtrack_succ_succ` for the recurrence. -/
def backtrack (t p : List ℤ) (i j : ℕ) : List (ℕ × ℕ) := backtrackGo t p (i + j) i j

/-- The matched pairs recovered by the LCS comparator, in forward order
(the source pushes during backtrack and then reverses). -/
def matchedPairsLCS (t p : List ℤ) : List (ℕ × ℕ) :=
  (backtrack t p t.length p.length).reverse

/-- Head-recursive longest-common-subsequence length, used to relate the
source's prefix-indexed table to the mathematical notion of a longest
common subsequence (the table consumes prefixes from their last element,
so `lcsTable t p i j` matches `lcsLen` on the reversed prefixes). -/
def lcsLen : List ℤ → List ℤ → ℕ
  | [], _ => 0
  | _ :: _, [] => 0
  | a :: as, b :: bs =>
    if a = b then lcsLen as bs + 1
    else max (lcsLen as (b :: bs)) (lcsLen (a :: as) bs)
termination_by xs ys => (xs.length, ys.length)

/-- The expected-onset loop of the comparator: walks the target accumulating
`beatOffset` (starting at `acc`) and emits `beatOffset * beatDurationSec`
per note; a missing duration counts as 1 beat. -/
def expectedOnsetsFrom (beatDurationSec : ℚ) : Melody → ℚ → List ℚ
  | [], _ => []
  | note :: rest, acc =>
    acc * beatDurationSec :: expectedOnsetsFrom beatDurationSec rest (acc + note.duration.getD 1)

/-- One step of the rhythm-scoring loop: given the accumulated
`(rhythmTotal, timingMarks)` and a matched pair, add the pair's points and
overwrite the pair's target slot in the timing marks. Tolerances are
0.1 s and 0.2 s. -/
def rhythmStep (expectedOnsets : List ℚ) (played : List PlayedNote)
    (acc : ℤ × List TimingStatus) (pr : ℕ × ℕ) : ℤ × List TimingStatus :=
  let expectedTime := expectedOnsets.getD pr.1 0
  let actualTime := (played.getD pr.2 default).time
  let error := actualTime - expectedTime
  let absError := |error|
  if absError ≤ 1/10 then (acc.1 + 100, acc.2.set pr.1 TimingStatus.onTime)
  else if absError ≤ 1/5 then
    (acc.1 + 50, acc.2.set pr.1 (if error < 0 then TimingStatus.early else TimingStatus.late))
  else
    (acc.1 + 0, acc.2.set pr.1 (if error < 0 then TimingStatus.early else TimingStatus.late))

/-- The LCS-based `compareMelodies` (the authoritative comparator). -/
def compareMelodies (target : Melody) (played : List PlayedNote)
    (options : Option CompareOptions) : ComparisonResult :=
  let targetMidi := target.map (·.midi)
  let playedMidi := played.map (·.midi)
  if target.length = 0 then
    { score := if played.length = 0 then 100 else 0
      pitchScore := if played.length = 0 then 100 else 0
      rhythmScore := none
      targetMarks := []
      playedMarks := played.map fun _ => NoteStatus.extra
      timingMarks := none }
  else if played.length = 0 then
    { score := 0, pitchScore := 0, rhythmScore := none
      targetMarks := target.map fun _ => NoteStatus.missing
      playedMarks := [], timingMarks := none }
  else
    let m := target.length
    let n := played.length
    let matchedPairs := matchedPairsLCS targetMidi playedMidi
    let targetInLCS := matchedPairs.map Prod.fst
    let playedInLCS := matchedPairs.map Prod.snd
    let lcsLength := lcsTable targetMidi playedMidi m n
    let pitchScore := jsRound ((lcsLength : ℚ) / m * 100)
    let targetMarks := (List.range m).map fun idx =>
      if idx ∈ targetInLCS then NoteStatus.correct else NoteStatus.missing
    let playedMarks := (List.range n).map fun idx =>
      if idx ∈ playedInLCS then NoteStatus.correct
      else if playedMidi.getD idx 0 ∈ targetMidi then NoteStatus.wrong
      else NoteStatus.extra
    match options with
    | none =>
      { score := pitchScore, pitchScore := pitchScore, rhythmScore := none
        targetMarks := targetMarks, playedMarks := playedMarks, timingMarks := none }
    | some opts =>
      if opts.rhythmMode = true ∧ opts.tempo ≠ 0 then
        let tempo := opts.tempo
        let beatDurationSec := 60 / tempo
        let expectedOnsets := expectedOnsetsFrom beatDurationSec target 0
        let folded := matchedPairs.foldl (rhythmStep expectedOnsets played)
          (0, List.replicate m TimingStatus.onTime)
        let rhythmMatched := matchedPairs.length
        let rhythmScore := if rhythmMatched > 0 then jsRound ((folded.1 : ℚ) / rhythmMatched) else 0
        let combinedScore := jsRound (6/10 * (pitchScore : ℚ) + 4/10 * (rhythmScore : ℚ))
        { score := combinedScore, pitchScore := pitchScore, rhythmScore := some rhythmScore
          targetMarks := targetMarks, playedMarks := playedMarks
          timingMarks := some folded.2 }
      else
        { score := pitchScore, pitchScore := pitchScore, rhythmScore := none
          targetMarks := targetMarks, playedMarks := playedMarks, timingMarks := none }

/-- The positional `compareMelodies` from `engine/comparator.ts`: notes are
scored index against index up to the shorter length. -/
def comparePositional (target : Melody) (played : List PlayedNote)
    (options : Option CompareOptions) : ComparisonResult :=
  let targetMidi := target.map (·.midi)
  let playedMidi := played.map (·.midi)
  if target.length = 0 then
    { score := if played.length = 0 then 100 else 0
      pitchScore := if played.length = 0 then 100 else 0
      rhythmScore := none
      targetMarks := []
      playedMarks := played.map fun _ => NoteStatus.extra
      timingMarks := none }
  else if played.length = 0 then
    { score := 0, pitchScore := 0, rhythmScore := none
      targetMarks := target.map fun _ => NoteStatus.missing
      playedMarks := [], timingMarks := none }
  else
    let m := target.length
    let n := played.length
    let len := min m n
    let matchedPairs := ((List.range len).filter fun i =>
      targetMidi.getD i 0 = playedMidi.getD i 0).map fun i => (i, i)
    let targetMarks := (List.range m).map fun i =>
      if i < len then
        (if targetMidi.getD i 0 = playedMidi.getD i 0 then NoteStatus.correct else NoteStatus.wrong)
      else NoteStatus.missing
    let playedMarks := (List.range n).map fun i =>
      if i < len then
        (if targetMidi.getD i 0 = playedMidi.getD i 0 then NoteStatus.correct else NoteStatus.wrong)
      else NoteStatus.extra
    let correctCount := matchedPairs.length
    let pitchScore := jsRound ((correctCount : ℚ) / m * 100)
    match options with
    | none =>
      { score := pitchScore, pitchScore := pitchScore, rhythmScore := none
        targetMarks := targetMarks, playedMarks := playedMarks, timingMarks := none }
    | some opts =>
      if opts.rhythmMode = true ∧ opts.tempo ≠ 0 then
        let tempo := opts.tempo
        let beatDurationSec := 60 / tempo
        let expectedOnsets := expectedOnsetsFrom beatDurationSec target 0
        let folded := matchedPairs.foldl (rhythmStep expectedOnsets played)
          (0, List.replicate m TimingStatus.onTime)
        let rhythmMatched := matchedPairs.length
        let rhythmScore := if rhythmMatched > 0 then jsRound ((folded.1 : ℚ) / rhythmMatched) else 0
        let combinedScore := jsRound (6/10 * (pitchScore : ℚ) + 4/10 * (rhythmScore : ℚ))
        { score := combinedScore, pitchScore := pitchScore, rhythmScore := some rhythmScore
          targetMarks := targetMarks, playedMarks := playedMarks
          timingMarks := some folded.2 }
      else
        { score := pitchScore, pitchScore := pitchScore, rhythmScore := none
          targetMarks := targetMarks, playedMarks := playedMarks, timingMarks := none }

/-! ## Progressive difficulty ladder (`engine/progressiveDifficulty.ts`) -/

/-- The names of the auto-scaled fields a ladder override may carry. -/
inductive ConfigField
  | noteCount
  | maxInterval
  | rhythmMode
  | tempo
  | allowedDurations
deriving DecidableEq, Repr

/-- A `Partial<DifficultyConfig>` as emitted by the ladder: every field
optional; an absent field is `none` (JS `undefined`). -/
structure ConfigOverride where
  noteCount : Option ℕ := none
  maxInterval : Option ℕ := none
  rhythmMode : Option Bool := none
  tempo : Option ℚ := none
  allowedDurations : Option (List ℚ) := none
deriving DecidableEq, Repr

/-- A named difficulty level with its required streak and config overrides. -/
structure DifficultyLevel where
  level : ℕ
  name : String
  streakRequired : ℤ
  config : ConfigOverride
deriving DecidableEq, Repr

instance : Inhabited DifficultyLevel := ⟨⟨1, "", 0, {}⟩⟩

/-- The difficulty ladder table, verbatim from the source. -/
def DIFFICULTY_LEVELS : List DifficultyLevel :=
  [ ⟨1, "Beginner",     0,  { noteCount := some 3, maxInterval := some 3,  rhythmMode := some false, tempo := some 100 }⟩
  , ⟨2, "Easy",         3,  { noteCount := some 4, maxInterval := some 5,  rhythmMode := some false, tempo := some 100 }⟩
  , ⟨3, "Moderate",     6,  { noteCount := some 4, maxInterval := some 7,  rhythmMode := some false, tempo := some 100 }⟩
  , ⟨4, "Intermediate", 10, { noteCount := some 5, maxInterval := some 7,  rhythmMode := some true,  tempo := some 100, allowedDurations := some [1/2, 1] }⟩
  , ⟨5, "Challenging",  15, { noteCount := some 5, maxInterval := some 9,  rhythmMode := some true,  tempo := some 110, allowedDurations := some [1/2, 1, 2] }⟩
  , ⟨6, "Advanced",     20, { noteCount := some 6, maxInterval := some 9,  rhythmMode := some true,  tempo := some 120, allowedDurations := some [1/2, 1, 3/2, 2] }⟩
  , ⟨7, "Expert",       26, { noteCount := some 7, maxInterval := some 12, rhythmMode := some true,  tempo := some 140, allowedDurations := some [1/2, 1, 3/2, 2] }⟩
  , ⟨8, "Master",       33, { noteCount := some 8, maxInterval := some 12, rhythmMode := some true,  tempo := some 160, allowedDurations := some [1/2, 1, 3/2, 2] }⟩ ]

/-- Index of the level returned by `getLevelForStreak`: the source scans the
table in order keeping the last level with `streakRequired <= streak`.
We track the index rather than the record so that JS object identity
(which level object was returned) is preserved for `getChangedFields`. -/
def getLevelIdxForStreak (streak : ℤ) : ℕ :=
  (List.range DIFFICULTY_LEVELS.length).foldl
    (fun best i => if streak ≥ (DIFFICULTY_LEVELS.getD i default).streakRequired then i else best) 0

/-- `getLevelForStreak`: the highest level whose requirement is met. -/
def getLevelForStreak (streak : ℤ) : DifficultyLevel :=
  DIFFICULTY_LEVELS.getD (getLevelIdxForStreak streak) default

/-- `getDifficultyForStreak`: the config overrides of the current level. -/
def getDifficultyForStreak (streak : ℤ) : ConfigOverride :=
  (getLevelForStreak streak).config

/-- `Object.keys` of an override literal, in the insertion order used by
every entry of `DIFFICULTY_LEVELS` (all four scalar fields are present in
every entry; `allowedDurations` only from level 4 up). -/
def overrideKeys (c : ConfigOverride) : List ConfigField :=
  (if c.noteCount.isSome then [ConfigField.noteCount] else []) ++
  (if c.maxInterval.isSome then [ConfigField.maxInterval] else []) ++
  (if c.rhythmMode.isSome then [ConfigField.rhythmMode] else []) ++
  (if c.tempo.isSome then [ConfigField.tempo] else []) ++
  (if c.allowedDurations.isSome then [ConfigField.allowedDurations] else [])

/-- JS `fromConfig[key] !== toConfig[key]` for the two override objects
returned by `getDifficultyForStreak`. Scalar fields (numbers, booleans,
`undefined`) compare by value. `allowedDurations` holds arrays, which JS
compares by reference: the table stores a distinct array literal per level,
so the values are identical only when both configs are the same level object
(`sameLevel`) or both sides are `undefined`. -/
def fieldNeqJS (sameLevel : Bool) (a b : ConfigOverride) : ConfigField → Bool
  | ConfigField.noteCount => !sameLevel && a.noteCount != b.noteCount
  | ConfigField.maxInterval => !sameLevel && a.maxInterval != b.maxInterval
  | ConfigField.rhythmMode => !sameLevel && a.rhythmMode != b.rhythmMode
  | ConfigField.tempo => !sameLevel && a.tempo != b.tempo
  | ConfigField.allowedDurations =>
      !sameLevel && !(a.allowedDurations.isNone && b.allowedDurations.isNone)

/-- `getChangedFields(fromStreak, toStreak)`: iterate the keys of the
*to* config and keep those whose values differ (JS `!==`). -/
def getChangedFields (fromStreak toStreak : ℤ) : List ConfigField :=
  let fi := getLevelIdxForStreak fromStreak
  let ti := getLevelIdxForStreak toStreak
  let fromConfig := (DIFFICULTY_LEVELS.getD fi default).config
  let toConfig := (DIFFICULTY_LEVELS.getD ti default).config
  (overrideKeys toConfig).filter (fieldNeqJS (fi == ti) fromConfig toConfig)

/-! ## Session statistics (`hooks/useStats.ts`) -/

/-- `DifficultyConfig` from `types/index.ts`. -/
structure DifficultyConfig where
  noteCount : ℕ
  scale : String
  key : String
  tempo : ℚ
  maxInterval : ℕ
  rhythmMode : Bool
  octave : ℤ
deriving DecidableEq, Repr

/-- `XPBreakdown`: the per-round experience-point computation result. -/
structure XPBreakdown where
  baseXP : ℤ
  noReplayBonus : ℤ
  perfectBonus : ℤ
  streakMultiplier : ℚ
  difficultyMultiplier : ℚ
  totalXP : ℤ
deriving DecidableEq, Repr

/-- `RoundRecord`: one entry of the round history. -/
structure RoundRecord where
  timestamp : ℤ
  score : ℤ
  noteCount : ℕ
  scale : String
  key : String
  replaysUsed : ℤ
  perfect : Bool
  bonusPoints : ℤ
deriving DecidableEq, Repr

/-- `SessionStats`: persisted statistics state. -/
structure SessionStats where
  currentStreak : ℤ
  bestStreak : ℤ
  totalRounds : ℤ
  totalPerfects : ℤ
  totalXP : ℤ
  roundHistory : List RoundRecord
deriving DecidableEq, Repr

/-- `computeXP` from `hooks/useStats.ts`. -/
def computeXP (score : ℤ) (replaysUsed : ℤ) (noteCount : ℕ) (currentStreak : ℤ) :
    XPBreakdown :=
  let baseXP := score
  let noReplayBonus : ℤ := if replaysUsed = 1 then 25 else 0
  let perfectBonus : ℤ := if score = 100 then 50 else 0
  let streakMultiplier : ℚ :=
    if currentStreak ≥ 10 then 3
    else if currentStreak ≥ 5 then 2
    else if currentStreak ≥ 3 then 3/2
    else 1
  let difficultyMultiplier : ℚ := (noteCount : ℚ) / 4
  let totalXP := jsRound ((baseXP : ℚ) * streakMultiplier * difficultyMultiplier
    + (noReplayBonus : ℚ) + (perfectBonus : ℚ))
  ⟨baseXP, noReplayBonus, perfectBonus, streakMultiplier, difficultyMultiplier, totalXP⟩

/-- `MAX_HISTORY` from `hooks/useStats.ts`. -/
def MAX_HISTORY : ℕ := 100

/-- The state-update core of `recordRound` from `hooks/useStats.ts`: builds
the updated `SessionStats` and the returned `XPBreakdown`. `Date.now()` is an
external input and is passed in as `timestamp`; `slice(-MAX_HISTORY)` keeps
the last `MAX_HISTORY` history entries. -/
def recordRound (timestamp : ℤ) (score : ℤ) (difficulty : DifficultyConfig)
    (replaysUsed : ℤ) (stats : SessionStats) : SessionStats × XPBreakdown :=
  let perfect : Bool := score == 100
  let newStreak := if perfect then stats.currentStreak + 1 else 0
  let xp := computeXP score replaysUsed difficulty.noteCount newStreak
  let record : RoundRecord :=
    ⟨timestamp, score, difficulty.noteCount, difficulty.scale, difficulty.key,
      replaysUsed, perfect, xp.totalXP⟩
  let history := stats.roundHistory ++ [record]
  ({ currentStreak := newStreak
     bestStreak := max stats.bestStreak newStreak
     totalRounds := stats.totalRounds + 1
     totalPerfects := stats.totalPerfects + (if perfect then 1 else 0)
     totalXP := stats.totalXP + xp.totalXP
     roundHistory := history.drop (history.length - MAX_HISTORY) }, xp)

/-! ## Melody generator (`engine/melodyGenerator.ts` and `theory/scales.ts`)

Randomness (`Math.random()`) is modelled as an injected stream
`rand : ℕ → ℚ` of draws in `[0, 1)`, consumed in program order via an
explicit counter. The `tonal` library is an external collaborator: the
pitch classes of the requested scale and of the tonic triad are parameters. -/

/-- Direction of the most recent leap, if any. -/
inductive LeapDir
  | up
  | down
deriving DecidableEq, Repr

/-- The shared cumulative-weight selection loop: subtract each weight from
the draw and return the first item whose weight brings it to `<= 0`
(`none` when the pool is exhausted, matching falling out of the JS loop). -/
def selectWeighted {α : Type} : List (α × ℚ) → ℚ → Option α
  | [], _ => none
  | (c, w) :: rest, r => if r - w ≤ 0 then some c else selectWeighted rest (r - w)

/-- The weighted rhythm pool `[duration, weight]`. -/
def RHYTHM_POOL : List (ℚ × ℚ) := [(1/2, 20), (1, 50), (3/2, 15), (2, 15)]

/-- `randomDuration`: weighted draw from the rhythm pool, quarter-note
fallback. -/
def randomDuration (r : ℚ) : ℚ :=
  let totalWeight := (RHYTHM_POOL.map Prod.snd).sum
  (selectWeighted RHYTHM_POOL (r * totalWeight)).getD 1

/-- `config.rhythmMode ? randomDuration() : undefined`, threading the
random counter (a draw is consumed only in rhythm mode). -/
def durDraw (rhythmMode : Bool) (rand : ℕ → ℚ) (k : ℕ) : Option ℚ × ℕ :=
  if rhythmMode then (some (randomDuration (rand k)), k + 1) else (none, k)

/-- The weight of candidate index `j` inside `weightedPick`: harmonic weight
(4 chord tone / 1, multiplied by 6 for the root or 3 for the fifth and reset
to 1 otherwise when resolving), times motion weight, times leap-recovery
weight. `rootPC`/`fifthPC` are `none` when the source computed `NaN`
(no chord tone found), which JS `===` never matches. JS `%` is the
truncated remainder `Int.tmod`. -/
def noteWeight (scaleNotes : List ℤ) (currentIndex : ℕ) (chordTonePCs : List ℤ)
    (rootPC fifthPC : Option ℤ) (lastLeapDir : Option LeapDir) (resolving : Bool)
    (j : ℕ) : ℚ :=
  let pc := Int.tmod (scaleNotes.getD j 0) 12
  let harmonicW0 : ℚ := if pc ∈ chordTonePCs then 4 else 1
  let harmonicW : ℚ :=
    if resolving then
      if some pc = rootPC then harmonicW0 * 6
      else if some pc = fifthPC then harmonicW0 * 3
      else 1
    else harmonicW0
  let scaleDist := ((j : ℤ) - (currentIndex : ℤ)).natAbs
  let motionW : ℚ := if scaleDist ≤ 1 then 5 else if scaleDist ≤ 2 then 3 else 1
  let direction := (j : ℤ) - (currentIndex : ℤ)
  let recoveryW : ℚ :=
    match lastLeapDir with
    | some LeapDir.up => if direction < 0 then 3 else 1
    | some LeapDir.down => if direction > 0 then 3 else 1
    | none => 1
  harmonicW * motionW * recoveryW

/-- `weightedPick`: weighted random choice among candidate indices, falling
back to the last candidate if the subtraction loop falls through. -/
def weightedPick (candidateIndices : List ℕ) (scaleNotes : List ℤ) (currentIndex : ℕ)
    (chordTonePCs : List ℤ) (rootPC fifthPC : Option ℤ) (lastLeapDir : Option LeapDir)
    (resolving : Bool) (r : ℚ) : ℕ :=
  let weights := candidateIndices.map
    (noteWeight scaleNotes currentIndex chordTonePCs rootPC fifthPC lastLeapDir resolving)
  let total := weights.sum
  (selectWeighted (candidateIndices.zip weights) (r * total)).getD
    (candidateIndices.getLastD 0)

/-- The arithmetic core of `randomIndexNearCenter` (the `length > 1` path):
triangular-ish draw rounded and clamped into `[0, length - 1]`. -/
def randomIndexNearCenterCore (length : ℕ) (r : ℚ) : ℕ :=
  let center : ℚ := ((length : ℚ) - 1) / 2
  let spread : ℚ := (length : ℚ) / 3
  let index : ℤ := jsRound (center + (r - 1/2) * 2 * spread)
  (max 0 (min ((length : ℤ) - 1) index)).toNat

/-- `randomIndexNearCenter`, threading the counter: no draw is consumed on
the `length <= 1` early return. -/
def randomIndexNearCenterDraw (length : ℕ) (rand : ℕ → ℚ) (k : ℕ) : ℕ × ℕ :=
  if length ≤ 1 then (0, k) else (randomIndexNearCenterCore length (rand k), k + 1)

/-- `getScaleNotesInRange` from `theory/scales.ts`, with the pitch classes
delivered by the external `tonal` scale lookup as a parameter (`[]` models
`Scale.get` returning no notes, which triggers the chromatic fallback).
`midiToPitchClass` is `((midi % 12) + 12) % 12`, i.e. `Int.emod midi 12`. -/
def getScaleNotesInRange (scalePCs : List ℤ) (lowMidi highMidi : ℤ) : List ℤ :=
  let chromatic := (List.range (highMidi - lowMidi + 1).toNat).map
    fun i : ℕ => lowMidi + (i : ℤ)
  if scalePCs.isEmpty then chromatic
  else chromatic.filter fun midi => decide (Int.emod midi 12 ∈ scalePCs)

/-- The chord-tone index scan of `generateMelody`: indices of scale notes
whose pitch class is a tonic-triad member. -/
def chordToneIdxList (scaleNotes chordTonePCs : List ℤ) : List ℕ :=
  (List.range scaleNotes.length).filter fun i =>
    decide (Int.tmod (scaleNotes.getD i 0) 12 ∈ chordTonePCs)

/-- The candidate scan of the generator loop: indices at distance in
`(0, maxInterval]` semitones from the current pitch. -/
def candidateIdxList (scaleNotes : List ℤ) (currentMidi : ℤ) (maxInterval : ℕ) :
    List ℕ :=
  (List.range scaleNotes.length).filter fun j =>
    let dist := (scaleNotes.getD j 0 - currentMidi).natAbs
    decide (0 < dist ∧ dist ≤ maxInterval)

/-- The walk of `generateMelody` (the `for i = 1; i < noteCount` loop):
`rem + 1` notes remain to be produced; `rem = 0` marks the final, resolving
note. An empty candidate list falls back to a uniformly random scale index
`Math.floor(random * length)`. -/
def walk (config : DifficultyConfig) (scaleNotes chordTonePCs : List ℤ)
    (rootPC fifthPC : Option ℤ) (rand : ℕ → ℚ) :
    ℕ → ℕ → Option LeapDir → ℕ → List MelodyNote
  | 0, _, _, _ => []
  | rem + 1, currentIndex, lastLeapDir, k =>
    let currentMidi := scaleNotes.getD currentIndex 0
    let candidateIndices := candidateIdxList scaleNotes currentMidi config.maxInterval
    let picked : ℕ × ℕ :=
      if candidateIndices.isEmpty then
        ((jsFloor (rand k * (scaleNotes.length : ℚ))).toNat, k + 1)
      else
        (weightedPick candidateIndices scaleNotes currentIndex chordTonePCs rootPC
          fifthPC lastLeapDir (rem == 0) (rand k), k + 1)
    let nextIndex := picked.1
    let delta := (nextIndex : ℤ) - (currentIndex : ℤ)
    let newLeapDir :=
      if delta.natAbs ≥ 3 then (if delta > 0 then some LeapDir.up else some LeapDir.down)
      else none
    let dd := durDraw config.rhythmMode rand picked.2
    ⟨scaleNotes.getD nextIndex 0, dd.1⟩ ::
      walk config scaleNotes chordTonePCs rootPC fifthPC rand rem nextIndex newLeapDir dd.2

/-- The fixed C-major fragment used when the scale set is empty. -/
def fallbackFragment : List ℤ := [60, 62, 64, 65]

/-- `generateMelody` from `engine/melodyGenerator.ts`, parameterized by the
Scale Provider results (`scaleNotes`, `chordTonePCs`) and the injected
randomness stream. `rootPC` is the pitch class of the first scale note that
is a chord tone; `none` models the JS `NaN` produced when `find` fails. -/
def generateMelody (config : DifficultyConfig) (scaleNotes chordTonePCs : List ℤ)
    (rand : ℕ → ℚ) : Melody :=
  if scaleNotes.isEmpty then
    (fallbackFragment.take config.noteCount).mapIdx fun i midi =>
      ⟨midi, if config.rhythmMode then some (randomDuration (rand i)) else none⟩
  else
    let rootPC : Option ℤ :=
      (scaleNotes.find? fun m => decide (Int.tmod m 12 ∈ chordTonePCs)).map
        fun m => Int.tmod m 12
    let fifthPC : Option ℤ := rootPC.map fun r => Int.tmod (r + 7) 12
    let chordToneIndices := chordToneIdxList scaleNotes chordTonePCs
    let start : ℕ × ℕ :=
      if chordToneIndices.length > 0 then
        let pr := randomIndexNearCenterDraw chordToneIndices.length rand 0
        (chordToneIndices.getD pr.1 0, pr.2)
      else
        randomIndexNearCenterDraw scaleNotes.length rand 0
    let dd := durDraw config.rhythmMode rand start.2
    ⟨scaleNotes.getD start.1 0, dd.1⟩ ::
      walk config scaleNotes chordTonePCs rootPC fifthPC rand
        (config.noteCount - 1) start.1 none dd.2

/-- The fixed generation range: centered on middle C, `60 - 8` to `60 + 12`. -/
def GEN_LOW_MIDI : ℤ := 60 - 8

/-- Upper end of the fixed generation range. -/
def GEN_HIGH_MIDI : ℤ := 60 + 12

/-! # Theorems

First, infrastructure: the fuel in `lcsGo`/`backtrackGo` is irrelevant as
long as it dominates the index sum, giving the source's recurrences for
`lcsTable` and `backtrack`. -/

theorem lcsGo_succ (t p : List ℤ) : ∀ fuel i j, i + j ≤ fuel →
    lcsGo t p (fuel + 1) i j = lcsGo t p fuel i j := by
  intro fuel
  induction fuel using Nat.strong_induction_on with
  | _ fuel ih =>
    intro i j hij
    match i, j with
    | 0, _ => simp [lcsGo]
    | _ + 1, 0 => simp [lcsGo]
    | i' + 1, j' + 1 =>
      obtain ⟨f', rfl⟩ : ∃ f', fuel = f' + 1 := ⟨fuel - 1, by omega⟩
      simp only [lcsGo]
      rw [ih f' (Nat.lt_succ_self _) i' j' (by omega),
          ih f' (Nat.lt_succ_self _) i' (j' + 1) (by omega),
          ih f' (Nat.lt_succ_self _) (i' + 1) j' (by omega)]

theorem lcsGo_fuel_irrel (t p : List ℤ) : ∀ fuel i j, i + j ≤ fuel →
    lcsGo t p fuel i j = lcsTable t p i j := by
  intro fuel
  induction fuel with
  | zero =>
    intro i j h
    obtain ⟨rfl, rfl⟩ : i = 0 ∧ j = 0 := by omega
    rfl
  | succ f ihf =>
    intro i j h
    by_cases hc : i + j ≤ f
    · rw [lcsGo_succ t p f i j hc, ihf i j hc]
    · have hij : i + j = f + 1 := by omega
      show lcsGo t p (f + 1) i j = lcsGo t p (i + j) i j
      rw [hij]

theorem lcsTable_succ_succ (t p : List ℤ) (i j : ℕ) :
    lcsTable t p (i + 1) (j + 1) =
      if t.getD i 0 = p.getD j 0 then lcsTable t p i j + 1
      else max (lcsTable t p i (j + 1)) (lcsTable t p (i + 1) j) := by
  show lcsGo t p ((i + 1) + (j + 1)) (i + 1) (j + 1) = _
  have h : (i + 1) + (j + 1) = (i + j + 1) + 1 := by omega
  rw [h]
  simp only [lcsGo]
  rw [lcsGo_fuel_irrel t p (i + j + 1) i j (by omega),
      lcsGo_fuel_irrel t p (i + j + 1) i (j + 1) (by omega),
      lcsGo_fuel_irrel t p (i + j + 1) (i + 1) j (by omega)]

theorem lcsTable_zero_left (t p : List ℤ) (j : ℕ) : lcsTable t p 0 j = 0 := by
  simp [lcsTable, lcsGo]

theorem lcsTable_zero_right (t p : List ℤ) (i : ℕ) : lcsTable t p i 0 = 0 := by
  cases i <;> rfl

theorem backtrackGo_succ (t p : List ℤ) : ∀ fuel i j, i + j ≤ fuel →
    backtrackGo t p (fuel + 1) i j = backtrackGo t p fuel i j := by
  intro fuel
  induction fuel using Nat.strong_induction_on with
  | _ fuel ih =>
    intro i j hij
    match i, j with
    | 0, _ => simp [backtrackGo]
    | _ + 1, 0 => simp [backtrackGo]
    | i' + 1, j' + 1 =>
      obtain ⟨f', rfl⟩ : ∃ f', fuel = f' + 1 := ⟨fuel - 1, by omega⟩
      simp only [backtrackGo]
      rw [ih f' (Nat.lt_succ_self _) i' j' (by omega),
          ih f' (Nat.lt_succ_self _) i' (j' + 1) (by omega),
          ih f' (Nat.lt_succ_self _) (i' + 1) j' (by omega)]

theorem backtrackGo_fuel_irrel (t p : List ℤ) : ∀ fuel i j, i + j ≤ fuel →
    backtrackGo t p fuel i j = backtrack t p i j := by
  intro fuel
  induction fuel with
  | zero =>
    intro i j h
    obtain ⟨rfl, rfl⟩ : i = 0 ∧ j = 0 := by omega
    rfl
  | succ f ihf =>
    intro i j h
    by_cases hc : i + j ≤ f
    · rw [backtrackGo_succ t p f i j hc, ihf i j hc]
    · have hij : i + j = f + 1 := by omega
      show backtrackGo t p (f + 1) i j = backtrackGo t p (i + j) i j
      rw [hij]

theorem backtrack_succ_succ (t p : List ℤ) (i j : ℕ) :
    backtrack t p (i + 1) (j + 1) =
      if t.getD i 0 = p.getD j 0 then (i, j) :: backtrack t p i j
      else if lcsTable t p i (j + 1) > lcsTable t p (i + 1) j then backtrack t p i (j + 1)
      else backtrack t p (i + 1) j := by
  show backtrackGo t p ((i + 1) + (j + 1)) (i + 1) (j + 1) = _
  have h : (i + 1) + (j + 1) = (i + j + 1) + 1 := by omega
  rw [h]
  simp only [backtrackGo]
  rw [backtrackGo_fuel_irrel t p (i + j + 1) i j (by omega),
      backtrackGo_fuel_irrel t p (i + j + 1) i (j + 1) (by omega),
      backtrackGo_fuel_irrel t p (i + j + 1) (i + 1) j (by omega)]

theorem backtrack_zero_left (t p : List ℤ) (j : ℕ) : backtrack t p 0 j = [] := by
  simp [backtrack, backtrackGo]

theorem backtrack_zero_right (t p : List ℤ) (i : ℕ) : backtrack t p i 0 = [] := by
  cases i <;> rfl

/-! LCS theory: `lcsLen` computes the length of a longest common
subsequence, and the source's table agrees with `lcsLen` on reversed
prefixes. -/

theorem lcsLen_nil_right (xs : List ℤ) : lcsLen xs [] = 0 := by
  cases xs <;> simp [lcsLen]

theorem lcsLen_exists (xs ys : List ℤ) :
    ∃ l : List ℤ, l.Sublist xs ∧ l.Sublist ys ∧ l.length = lcsLen xs ys := by
  induction xs, ys using lcsLen.induct with
  | case1 ys => exact ⟨[], List.nil_sublist _, List.nil_sublist _, by simp [lcsLen]⟩
  | case2 a as => exact ⟨[], List.nil_sublist _, List.nil_sublist _, by simp [lcsLen]⟩
  | case3 as b bs ih =>
    obtain ⟨l, h1, h2, h3⟩ := ih
    exact ⟨b :: l, List.cons_sublist_cons.mpr h1, List.cons_sublist_cons.mpr h2,
      by simp [lcsLen, h3]⟩
  | case4 a as b bs hab ih1 ih2 =>
    obtain ⟨l1, h11, h12, h13⟩ := ih1
    obtain ⟨l2, h21, h22, h23⟩ := ih2
    rcases le_total (lcsLen (a :: as) bs) (lcsLen as (b :: bs)) with hle | hle
    · refine ⟨l1, h11.trans (List.sublist_cons_self a as), h12, ?_⟩
      simp [lcsLen, hab, h13, Nat.max_eq_left hle]
    · refine ⟨l2, h21, h22.trans (List.sublist_cons_self b bs), ?_⟩
      simp [lcsLen, hab, h23, Nat.max_eq_right hle]

theorem length_le_lcsLen : ∀ (xs ys l : List ℤ), l.Sublist xs → l.Sublist ys →
    l.length ≤ lcsLen xs ys := by
  have main : ∀ n, ∀ xs ys l : List ℤ, xs.length + ys.length ≤ n →
      l.Sublist xs → l.Sublist ys → l.length ≤ lcsLen xs ys := by
    intro n
    induction n using Nat.strong_induction_on with
    | _ n ih =>
      intro xs ys l hn hx hy
      match xs, ys with
      | [], _ =>
        obtain rfl := List.sublist_nil.mp hx
        exact Nat.zero_le _
      | _ :: _, [] =>
        obtain rfl := List.sublist_nil.mp hy
        exact Nat.zero_le _
      | a :: as, b :: bs =>
        by_cases hab : a = b
        · subst hab
          have step : ∃ l₂ : List ℤ, l₂.Sublist as ∧ l₂.Sublist bs ∧
              l.length ≤ l₂.length + 1 := by
            match l with
            | [] => exact ⟨[], List.nil_sublist _, List.nil_sublist _, by simp⟩
            | c :: l' =>
              by_cases hca : c = a
              · subst hca
                have h1 : l'.Sublist as := by
                  rcases List.sublist_cons_iff.mp hx with h | ⟨r, hr, h⟩
                  · exact (List.sublist_cons_self c l').trans h
                  · obtain rfl : l' = r := by injection hr
                    exact h
                have h2 : l'.Sublist bs := by
                  rcases List.sublist_cons_iff.mp hy with h | ⟨r, hr, h⟩
                  · exact (List.sublist_cons_self c l').trans h
                  · obtain rfl : l' = r := by injection hr
                    exact h
                exact ⟨l', h1, h2, by simp⟩
              · have h1 : (c :: l').Sublist as := by
                  rcases List.sublist_cons_iff.mp hx with h | ⟨r, hr, h⟩
                  · exact h
                  · exact absurd (by injection hr) hca
                have h2 : (c :: l').Sublist bs := by
                  rcases List.sublist_cons_iff.mp hy with h | ⟨r, hr, h⟩
                  · exact h
                  · exact absurd (by injection hr) hca
                exact ⟨c :: l', h1, h2, Nat.le_succ _⟩
          obtain ⟨l₂, h1, h2, h3⟩ := step
          have hrec := ih (as.length + bs.length) (by simp at hn; omega)
            as bs l₂ le_rfl h1 h2
          calc l.length ≤ l₂.length + 1 := h3
            _ ≤ lcsLen as bs + 1 := by omega
            _ = lcsLen (a :: as) (a :: bs) := by simp [lcsLen]
        · have split : l.Sublist as ∨ l.Sublist bs := by
            match l with
            | [] => exact Or.inl (List.nil_sublist _)
            | c :: l' =>
              rcases List.sublist_cons_iff.mp hx with h | ⟨r, hr, h⟩
              · exact Or.inl h
              · have hca : c = a := by injection hr
                rcases List.sublist_cons_iff.mp hy with h2 | ⟨r2, hr2, h2⟩
                · exact Or.inr h2
                · have hcb : c = b := by injection hr2
                  exact absurd (hca.symm.trans hcb) hab
          have hgoal : lcsLen (a :: as) (b :: bs) =
              max (lcsLen as (b :: bs)) (lcsLen (a :: as) bs) := by
            simp [lcsLen, hab]
          rcases split with h | h
          · have hrec := ih (as.length + (b :: bs).length) (by simp at hn ⊢; omega)
              as (b :: bs) l le_rfl h hy
            omega
          · have hrec := ih ((a :: as).length + bs.length) (by simp at hn ⊢; omega)
              (a :: as) bs l le_rfl hx h
            omega
  intro xs ys l hx hy
  exact main (xs.length + ys.length) xs ys l le_rfl hx hy

theorem take_succ_reverse (t : List ℤ) (i : ℕ) (h : i < t.length) :
    (t.take (i + 1)).reverse = t.getD i 0 :: (t.take i).reverse := by
  rw [List.take_succ, List.getElem?_eq_getElem h]
  simp [List.reverse_append, List.getD_eq_getElem?_getD, List.getElem?_eq_getElem h]

theorem lcsTable_eq_lcsLen_rev (t p : List ℤ) : ∀ i j, i ≤ t.length → j ≤ p.length →
    lcsTable t p i j = lcsLen ((t.take i).reverse) ((p.take j).reverse) := by
  have main : ∀ n, ∀ i j, i + j ≤ n → i ≤ t.length → j ≤ p.length →
      lcsTable t p i j = lcsLen ((t.take i).reverse) ((p.take j).reverse) := by
    intro n
    induction n using Nat.strong_induction_on with
    | _ n ih =>
      intro i j hn hi hj
      match i, j with
      | 0, j => simp [lcsTable_zero_left, lcsLen]
      | i' + 1, 0 => simp [lcsTable_zero_right, lcsLen_nil_right]
      | i' + 1, j' + 1 =>
        have hi' : i' < t.length := by omega
        have hj' : j' < p.length := by omega
        have htake := take_succ_reverse t i' hi'
        have ptake := take_succ_reverse p j' hj'
        rw [lcsTable_succ_succ, htake, ptake]
        simp only [lcsLen]
        by_cases hc : t.getD i' 0 = p.getD j' 0
        · rw [if_pos hc, if_pos hc,
            ih (i' + j') (by omega) i' j' (by omega) (by omega) (by omega)]
        · rw [if_neg hc, if_neg hc, ← ptake, ← htake,
            ih (i' + j' + 1) (by omega) i' (j' + 1) (by omega) (by omega) (by omega),
            ih (i' + j' + 1) (by omega) (i' + 1) j' (by omega) (by omega) (by omega)]
  intro i j hi hj
  exact main (i + j) i j le_rfl hi hj

theorem lcsTable_full (t p : List ℤ) :
    lcsTable t p t.length p.length = lcsLen t.reverse p.reverse := by
  rw [lcsTable_eq_lcsLen_rev t p t.length p.length le_rfl le_rfl,
    List.take_length, List.take_length]

theorem jsRound_mono {a b : ℚ} (h : a ≤ b) : jsRound a ≤ jsRound b :=
  Int.floor_le_floor (by linarith)

theorem compareMelodies_pitchScore_eq (target : Melody) (played : List PlayedNote)
    (opts : Option CompareOptions) (ht : ¬ target.length = 0) (hp : ¬ played.length = 0) :
    (compareMelodies target played opts).pitchScore =
      jsRound ((lcsTable (target.map (·.midi)) (played.map (·.midi))
        target.length played.length : ℚ) / (target.length : ℚ) * 100) := by
  cases opts with
  | none =>
    dsimp only [compareMelodies]
    rw [if_neg ht, if_neg hp]
  | some o =>
    dsimp only [compareMelodies]
    rw [if_neg ht, if_neg hp]
    by_cases hc : o.rhythmMode = true ∧ o.tempo ≠ 0
    · rw [if_pos hc]
    · rw [if_neg hc]

theorem comparePositional_pitchScore_eq (target : Melody) (played : List PlayedNote)
    (opts : Option CompareOptions) (ht : ¬ target.length = 0) (hp : ¬ played.length = 0) :
    (comparePositional target played opts).pitchScore =
      jsRound ((((List.range (min target.length played.length)).filter fun i =>
          decide ((target.map (·.midi)).getD i 0 = (played.map (·.midi)).getD i 0)).length : ℚ)
        / (target.length : ℚ) * 100) := by
  cases opts with
  | none =>
    dsimp only [comparePositional]
    rw [if_neg ht, if_neg hp]
    simp
  | some o =>
    dsimp only [comparePositional]
    rw [if_neg ht, if_neg hp]
    by_cases hc : o.rhythmMode = true ∧ o.tempo ≠ 0
    · rw [if_pos hc]
      simp
    · rw [if_neg hc]
      simp

theorem lcsTable_is_max (t p : List ℤ) :
    (∃ l : List ℤ, l.Sublist t ∧ l.Sublist p ∧
        l.length = lcsTable t p t.length p.length) ∧
    (∀ l : List ℤ, l.Sublist t → l.Sublist p →
        l.length ≤ lcsTable t p t.length p.length) := by
  rw [lcsTable_full]
  constructor
  · obtain ⟨l, h1, h2, h3⟩ := lcsLen_exists t.reverse p.reverse
    refine ⟨l.reverse, ?_, ?_, by simpa using h3⟩
    · have := List.reverse_sublist.mpr h1
      simpa using this
    · have := List.reverse_sublist.mpr h2
      simpa using this
  · intro l h1 h2
    have hx : l.reverse.Sublist t.reverse := by simpa using List.reverse_sublist.mpr h1
    have hy : l.reverse.Sublist p.reverse := by simpa using List.reverse_sublist.mpr h2
    have := length_le_lcsLen t.reverse p.reverse l.reverse hx hy
    simpa using this


/-- C1: for every non-empty target and non-empty played sequence the pitch
score equals `round(100 × L / target length)` where `L` is the length of a
longest common subsequence of the target and played pitch sequences; in
particular for target pitches `[60,62,64,65]` and played `[60,64,62,65]`
the LCS length is 3 and the pitch score is 75. -/
theorem pitchScore_eq_round_lcs (target : Melody) (played : List PlayedNote)
    (opts : Option CompareOptions) (ht : target ≠ []) (hp : played ≠ []) :
    (∃ L : ℕ,
      (∃ l : List ℤ, l.Sublist (target.map (·.midi)) ∧ l.Sublist (played.map (·.midi)) ∧
        l.length = L) ∧
      (∀ l : List ℤ, l.Sublist (target.map (·.midi)) → l.Sublist (played.map (·.midi)) →
        l.length ≤ L) ∧
      (compareMelodies target played opts).pitchScore =
        jsRound (100 * (L : ℚ) / (target.length : ℚ))) ∧
    (compareMelodies [⟨60, none⟩, ⟨62, none⟩, ⟨64, none⟩, ⟨65, none⟩]
      [⟨60, 0⟩, ⟨64, 1⟩, ⟨62, 2⟩, ⟨65, 3⟩] none).pitchScore = 75 ∧
    lcsTable [60, 62, 64, 65] [60, 64, 62, 65] 4 4 = 3 := by
  refine ⟨?_, by with_unfolding_all rfl, by rfl⟩
  have ht' : ¬ target.length = 0 := by simpa using ht
  have hp' : ¬ played.length = 0 := by simpa using hp
  refine ⟨lcsTable (target.map (·.midi)) (played.map (·.midi))
    target.length played.length, ?_, ?_, ?_⟩
  · have h := (lcsTable_is_max (target.map (·.midi)) (played.map (·.midi))).1
    rwa [List.length_map, List.length_map] at h
  · intro l h1 h2
    have h := (lcsTable_is_max (target.map (·.midi)) (played.map (·.midi))).2 l h1 h2
    rwa [List.length_map, List.length_map] at h
  · rw [compareMelodies_pitchScore_eq target played opts ht' hp']
    congr 1
    ring

theorem pitchScore_eq_round_lcs_witness :
    (∃ L : ℕ,
      (∃ l : List ℤ, l.Sublist (([⟨60, none⟩, ⟨62, none⟩, ⟨64, none⟩, ⟨65, none⟩] :
          Melody).map (·.midi)) ∧
        l.Sublist (([⟨60, 0⟩, ⟨64, 1⟩, ⟨62, 2⟩, ⟨65, 3⟩] :
          List PlayedNote).map (·.midi)) ∧ l.length = L) ∧
      (∀ l : List ℤ, l.Sublist (([⟨60, none⟩, ⟨62, none⟩, ⟨64, none⟩, ⟨65, none⟩] :
          Melody).map (·.midi)) →
        l.Sublist (([⟨60, 0⟩, ⟨64, 1⟩, ⟨62, 2⟩, ⟨65, 3⟩] :
          List PlayedNote).map (·.midi)) → l.length ≤ L) ∧
      (compareMelodies [⟨60, none⟩, ⟨62, none⟩, ⟨64, none⟩, ⟨65, none⟩]
        [⟨60, 0⟩, ⟨64, 1⟩, ⟨62, 2⟩, ⟨65, 3⟩] none).pitchScore =
        jsRound (100 * (L : ℚ) /
          (([⟨60, none⟩, ⟨62, none⟩, ⟨64, none⟩, ⟨65, none⟩] : Melody).length : ℚ))) ∧
    (compareMelodies [⟨60, none⟩, ⟨62, none⟩, ⟨64, none⟩, ⟨65, none⟩]
      [⟨60, 0⟩, ⟨64, 1⟩, ⟨62, 2⟩, ⟨65, 3⟩] none).pitchScore = 75 ∧
    lcsTable [60, 62, 64, 65] [60, 64, 62, 65] 4 4 = 3 :=
  pitchScore_eq_round_lcs [⟨60, none⟩, ⟨62, none⟩, ⟨64, none⟩, ⟨65, none⟩]
    [⟨60, 0⟩, ⟨64, 1⟩, ⟨62, 2⟩, ⟨65, 3⟩] none (by decide) (by decide)

theorem posFilter_map_fst_sublist_left (tm pm : List ℤ) :
    (((tm.zip pm).filter fun ab => decide (ab.1 = ab.2)).map Prod.fst).Sublist tm := by
  induction tm generalizing pm with
  | nil => simp
  | cons a as ih =>
    cases pm with
    | nil => simp
    | cons b bs =>
      by_cases hab : a = b
      · rw [List.zip_cons_cons, List.filter_cons, if_pos (by simp [hab]), List.map_cons]
        exact List.cons_sublist_cons.mpr (ih bs)
      · rw [List.zip_cons_cons, List.filter_cons, if_neg (by simp [hab])]
        exact (ih bs).cons a

theorem posFilter_map_fst_sublist_right (tm pm : List ℤ) :
    (((tm.zip pm).filter fun ab => decide (ab.1 = ab.2)).map Prod.fst).Sublist pm := by
  induction tm generalizing pm with
  | nil => simp
  | cons a as ih =>
    cases pm with
    | nil => simp
    | cons b bs =>
      by_cases hab : a = b
      · rw [List.zip_cons_cons, List.filter_cons, if_pos (by simp [hab]), List.map_cons]
        subst hab
        exact List.cons_sublist_cons.mpr (ih bs)
      · rw [List.zip_cons_cons, List.filter_cons, if_neg (by simp [hab])]
        exact (ih bs).cons b

theorem posCount_eq (tm pm : List ℤ) :
    ((List.range (min tm.length pm.length)).filter fun i =>
      decide (tm.getD i 0 = pm.getD i 0)).length =
    (((tm.zip pm).filter fun ab => decide (ab.1 = ab.2)).map Prod.fst).length := by
  rw [List.length_map]
  induction tm generalizing pm with
  | nil => simp
  | cons a as ih =>
    cases pm with
    | nil => simp
    | cons b bs =>
      have hmin : min (a :: as).length (b :: bs).length = min as.length bs.length + 1 := by
        simp [Nat.succ_min_succ]
      rw [hmin, List.range_succ_eq_map, List.filter_cons, List.filter_map,
        List.zip_cons_cons, List.filter_cons]
      simp only [List.getD_cons_zero, Function.comp_def, List.getD_cons_succ]
      have ih' := ih bs
      by_cases hab : a = b
      · simp only [List.getD_eq_getElem?_getD] at ih'
        simp [hab, ih']
      · simp only [List.getD_eq_getElem?_getD] at ih'
        simp [hab, ih']

/-- C9: the LCS-based comparator generalizes the positional one: its pitch
score is always at least the positional comparator's pitch score, because the
positional matches form a common subsequence of the two pitch sequences. -/
theorem lcs_pitchScore_ge_positional (target : Melody) (played : List PlayedNote)
    (opts : Option CompareOptions) :
    (comparePositional target played opts).pitchScore ≤
      (compareMelodies target played opts).pitchScore := by
  by_cases ht : target.length = 0
  · have h1 : (comparePositional target played opts).pitchScore =
        if played.length = 0 then 100 else 0 := by
      dsimp only [comparePositional]
      rw [if_pos ht]
    have h2 : (compareMelodies target played opts).pitchScore =
        if played.length = 0 then 100 else 0 := by
      dsimp only [compareMelodies]
      rw [if_pos ht]
    rw [h1, h2]
  · by_cases hp : played.length = 0
    · have h1 : (comparePositional target played opts).pitchScore = 0 := by
        dsimp only [comparePositional]
        rw [if_neg ht, if_pos hp]
      have h2 : (compareMelodies target played opts).pitchScore = 0 := by
        dsimp only [compareMelodies]
        rw [if_neg ht, if_pos hp]
      rw [h1, h2]
    · rw [comparePositional_pitchScore_eq target played opts ht hp,
        compareMelodies_pitchScore_eq target played opts ht hp]
      apply jsRound_mono
      have hlenT : (target.map (·.midi)).length = target.length := List.length_map _ _
      have hlenP : (played.map (·.midi)).length = played.length := List.length_map _ _
      have hC : ((List.range (min target.length played.length)).filter fun i =>
          decide ((target.map (·.midi)).getD i 0 = (played.map (·.midi)).getD i 0)).length ≤
          lcsTable (target.map (·.midi)) (played.map (·.midi))
            target.length played.length := by
        rw [← hlenT, ← hlenP, posCount_eq]
        exact (lcsTable_is_max (target.map (·.midi)) (played.map (·.midi))).2 _
          (posFilter_map_fst_sublist_left _ _) (posFilter_map_fst_sublist_right _ _)
      have hm : (0:ℚ) < (target.length : ℚ) := by
        exact_mod_cast Nat.pos_of_ne_zero ht
      have hCL : (((List.range (min target.length played.length)).filter fun i =>
          decide ((target.map (·.midi)).getD i 0 = (played.map (·.midi)).getD i 0)).length : ℚ) ≤
          (lcsTable (target.map (·.midi)) (played.map (·.midi))
            target.length played.length : ℚ) := by
        exact_mod_cast hC
      gcongr

/-- C5 counterexample: the claim that the TARGET pointer is advanced
(`i` decremented) on ties is false. At target pitches `[60, 62]` and played
pitches `[62, 60]`, from position `(2, 2)` the current pitches differ and
`dp[1][2] = dp[2][1]`, yet the code's backtrack equals the `j`-decremented
continuation `backtrack 2 1` (recovering the pair `(1, 0)`) and differs from
the `i`-decremented continuation `backtrack 1 2` (which would recover
`(0, 1)`). -/
theorem backtrack_tie_counterexample :
    ([60, 62] : List ℤ).getD 1 0 ≠ ([62, 60] : List ℤ).getD 1 0 ∧
    lcsTable [60, 62] [62, 60] 1 2 = lcsTable [60, 62] [62, 60] 2 1 ∧
    backtrack [60, 62] [62, 60] 2 2 = backtrack [60, 62] [62, 60] 2 1 ∧
    backtrack [60, 62] [62, 60] 2 2 = [(1, 0)] ∧
    backtrack [60, 62] [62, 60] 1 2 = [(0, 1)] ∧
    backtrack [60, 62] [62, 60] 2 2 ≠ backtrack [60, 62] [62, 60] 1 2 := by
  decide

/-- C5 (amended): during LCS backtracking, whenever the current target and
played pitches differ and the two table values `dp[i-1][j]` and `dp[i][j-1]`
are equal, the PLAYED pointer is advanced (`j` is decremented) rather than
the target pointer, so the recovered pairing is the unique one determined by
this deterministic tie-break. -/
theorem backtrack_tie_advances_played (t p : List ℤ) (i j : ℕ)
    (hne : t.getD i 0 ≠ p.getD j 0)
    (htie : lcsTable t p i (j + 1) = lcsTable t p (i + 1) j) :
    backtrack t p (i + 1) (j + 1) = backtrack t p (i + 1) j := by
  rw [backtrack_succ_succ, if_neg hne, if_neg (by omega)]

theorem backtrack_tie_advances_played_witness :
    backtrack [60, 62] [62, 60] 2 2 = backtrack [60, 62] [62, 60] 2 1 :=
  backtrack_tie_advances_played [60, 62] [62, 60] 1 1 (by decide) (by decide)

/-- C3 counterexample: the resolution bonus does not REPLACE the chord-tone
harmonic weight with 6/3/1 — it multiplies it. With chord tones `{0, 4, 7}`,
root pitch class 0, fifth 7: candidate `j = 0` (pitch 60, class 0, a chord
tone and the root) at current index 1 with no active leap gets total weight
`(4 × 6) × 5 × 1 = 120`, whereas the claimed override semantics predicts
`6 × 5 × 1 = 30`. -/
theorem noteWeight_resolution_counterexample :
    noteWeight [60, 62, 64] 1 [0, 4, 7] (some 0) (some 7) none true 0 = 120 ∧
    (120 : ℚ) ≠ 6 * 5 * 1 := by
  constructor
  · with_unfolding_all rfl
  · norm_num

/-- C3 (amended): when generating the final note (resolving), the harmonic
weight of a candidate is the chord-tone weight (4 if its pitch class is a
tonic-triad member, else 1) MULTIPLIED by 6 when the pitch class equals the
root and by 3 when it equals the fifth, and reset to 1 otherwise; the total
weight is this harmonic weight times the motion weight times the
leap-recovery weight. -/
theorem noteWeight_resolution_formula (scaleNotes : List ℤ) (currentIndex : ℕ)
    (chordTonePCs : List ℤ) (rootPC fifthPC : Option ℤ)
    (lastLeapDir : Option LeapDir) (j : ℕ) :
    noteWeight scaleNotes currentIndex chordTonePCs rootPC fifthPC lastLeapDir true j =
      (if some (Int.tmod (scaleNotes.getD j 0) 12) = rootPC then
        (if Int.tmod (scaleNotes.getD j 0) 12 ∈ chordTonePCs then (24 : ℚ) else 6)
      else if some (Int.tmod (scaleNotes.getD j 0) 12) = fifthPC then
        (if Int.tmod (scaleNotes.getD j 0) 12 ∈ chordTonePCs then (12 : ℚ) else 3)
      else 1) *
      (if ((j : ℤ) - (currentIndex : ℤ)).natAbs ≤ 1 then (5 : ℚ)
       else if ((j : ℤ) - (currentIndex : ℤ)).natAbs ≤ 2 then 3 else 1) *
      (match lastLeapDir with
       | some LeapDir.up => if (j : ℤ) - (currentIndex : ℤ) < 0 then (3 : ℚ) else 1
       | some LeapDir.down => if (j : ℤ) - (currentIndex : ℤ) > 0 then (3 : ℚ) else 1
       | none => 1) := by
  simp only [noteWeight, if_true]
  split_ifs <;> ring

theorem getLevelIdxForStreak_eq (s : ℤ) :
    getLevelIdxForStreak s =
      if s ≥ 33 then 7 else if s ≥ 26 then 6 else if s ≥ 20 then 5
      else if s ≥ 15 then 4 else if s ≥ 10 then 3 else if s ≥ 6 then 2
      else if s ≥ 3 then 1 else 0 := by
  simp only [getLevelIdxForStreak,
    show DIFFICULTY_LEVELS.length = 8 from rfl,
    show List.range 8 = [0, 1, 2, 3, 4, 5, 6, 7] from rfl,
    List.foldl_cons, List.foldl_nil,
    show (DIFFICULTY_LEVELS.getD 0 default).streakRequired = 0 from rfl,
    show (DIFFICULTY_LEVELS.getD 1 default).streakRequired = 3 from rfl,
    show (DIFFICULTY_LEVELS.getD 2 default).streakRequired = 6 from rfl,
    show (DIFFICULTY_LEVELS.getD 3 default).streakRequired = 10 from rfl,
    show (DIFFICULTY_LEVELS.getD 4 default).streakRequired = 15 from rfl,
    show (DIFFICULTY_LEVELS.getD 5 default).streakRequired = 20 from rfl,
    show (DIFFICULTY_LEVELS.getD 6 default).streakRequired = 26 from rfl,
    show (DIFFICULTY_LEVELS.getD 7 default).streakRequired = 33 from rfl]
  split_ifs <;> omega

/-- C4 counterexample: `getChangedFields` is not the symmetric difference
of the field values and depends on argument order: from streak 10 (level 4)
down to streak 6 (level 3) it reports `[noteCount, rhythmMode]`, but in the
opposite direction it additionally reports `allowedDurations` (present only
in the level-4 override), because only the keys of the *to* config are
examined. -/
theorem getChangedFields_counterexample :
    getChangedFields 10 6 = [ConfigField.noteCount, ConfigField.rhythmMode] ∧
    getChangedFields 6 10 =
      [ConfigField.noteCount, ConfigField.rhythmMode, ConfigField.allowedDurations] ∧
    getChangedFields 10 6 ≠ getChangedFields 6 10 := by
  refine ⟨?_, ?_, ?_⟩ <;> with_unfolding_all decide

/-- C4 (amended): `getChangedFields` examines only the keys present in the
to-streak's override and compares `allowedDurations` by array identity, so
it is not symmetric in general; restricted to streaks below the rhythm
levels (both below 10) it is exactly the symmetric difference by field
value, it is empty whenever both streaks map to the same level, and
`changedFields(2, 3)` is exactly the set of fields whose values differ
between the level-1 and level-2 overrides, namely
`[noteCount, maxInterval]`. -/
theorem getChangedFields_characterization :
    (∀ s t : ℤ, s < 10 → t < 10 → ∀ f : ConfigField,
      (f ∈ getChangedFields s t ↔
        ¬ (match f with
          | ConfigField.noteCount =>
            (getDifficultyForStreak s).noteCount = (getDifficultyForStreak t).noteCount
          | ConfigField.maxInterval =>
            (getDifficultyForStreak s).maxInterval = (getDifficultyForStreak t).maxInterval
          | ConfigField.rhythmMode =>
            (getDifficultyForStreak s).rhythmMode = (getDifficultyForStreak t).rhythmMode
          | ConfigField.tempo =>
            (getDifficultyForStreak s).tempo = (getDifficultyForStreak t).tempo
          | ConfigField.allowedDurations =>
            (getDifficultyForStreak s).allowedDurations =
              (getDifficultyForStreak t).allowedDurations))) ∧
    (∀ s : ℤ, getChangedFields s s = []) ∧
    (getChangedFields 2 3 = [ConfigField.noteCount, ConfigField.maxInterval] ∧
      ∀ f : ConfigField,
        (f ∈ getChangedFields 2 3 ↔
          ¬ (match f with
            | ConfigField.noteCount =>
              (getDifficultyForStreak 2).noteCount = (getDifficultyForStreak 3).noteCount
            | ConfigField.maxInterval =>
              (getDifficultyForStreak 2).maxInterval = (getDifficultyForStreak 3).maxInterval
            | ConfigField.rhythmMode =>
              (getDifficultyForStreak 2).rhythmMode = (getDifficultyForStreak 3).rhythmMode
            | ConfigField.tempo =>
              (getDifficultyForStreak 2).tempo = (getDifficultyForStreak 3).tempo
            | ConfigField.allowedDurations =>
              (getDifficultyForStreak 2).allowedDurations =
                (getDifficultyForStreak 3).allowedDurations))) := by
  have hidx : ∀ s : ℤ, s < 10 →
      getLevelIdxForStreak s = if s ≥ 6 then 2 else if s ≥ 3 then 1 else 0 := by
    intro s hs
    rw [getLevelIdxForStreak_eq]
    split_ifs <;> omega
  refine ⟨?_, ?_, ?_, ?_⟩
  · intro s t hs htl f
    have hs' := hidx s hs
    have ht' := hidx t htl
    by_cases h6s : s ≥ 6 <;> by_cases h3s : s ≥ 3 <;>
      by_cases h6t : t ≥ 6 <;> by_cases h3t : t ≥ 3 <;>
      [skip; skip; skip; skip; skip; skip; skip; skip; skip; skip; skip; skip;
       skip; skip; skip; skip] <;>
    · first
      | omega
      | (simp only [h6s, h3s, h6t, h3t, if_true, if_false] at hs' ht'
         simp only [getChangedFields, getDifficultyForStreak, getLevelForStreak, hs', ht']
         cases f <;> with_unfolding_all decide)
  · intro s
    simp only [getChangedFields]
    have : (getLevelIdxForStreak s == getLevelIdxForStreak s) = true := by
      simp
    rw [this]
    apply List.filter_eq_nil_iff.mpr
    intro f hf
    cases f <;> simp [fieldNeqJS]
  · with_unfolding_all decide
  · intro f
    have h2 : getLevelIdxForStreak 2 = 0 := by rw [getLevelIdxForStreak_eq]; norm_num
    have h3 : getLevelIdxForStreak 3 = 1 := by rw [getLevelIdxForStreak_eq]; norm_num
    simp only [getChangedFields, getDifficultyForStreak, getLevelForStreak, h2, h3]
    cases f <;> with_unfolding_all decide

theorem getChangedFields_characterization_witness :
    ConfigField.noteCount ∈ getChangedFields 2 3 ↔
      ¬ ((getDifficultyForStreak 2).noteCount = (getDifficultyForStreak 3).noteCount) :=
  getChangedFields_characterization.1 2 3 (by decide) (by decide) ConfigField.noteCount

/-- C8: the comparator is total on degenerate inputs: empty target and empty
played give combined score = pitch score = 100 with empty mark lists; empty
target with a non-empty played sequence gives score 0 with every played note
marked extra; a non-empty target with empty played gives score 0 with every
target note marked missing. -/
theorem compareMelodies_degenerate_total (target : Melody) (played : List PlayedNote)
    (opts : Option CompareOptions) :
    (target = [] → played = [] → compareMelodies target played opts =
      { score := 100, pitchScore := 100, rhythmScore := none,
        targetMarks := [], playedMarks := [], timingMarks := none }) ∧
    (target = [] → played ≠ [] → compareMelodies target played opts =
      { score := 0, pitchScore := 0, rhythmScore := none, targetMarks := [],
        playedMarks := played.map fun _ => NoteStatus.extra, timingMarks := none }) ∧
    (target ≠ [] → played = [] → compareMelodies target played opts =
      { score := 0, pitchScore := 0, rhythmScore := none,
        targetMarks := target.map fun _ => NoteStatus.missing,
        playedMarks := [], timingMarks := none }) := by
  refine ⟨?_, ?_, ?_⟩
  · rintro rfl rfl
    rfl
  · rintro rfl hp
    have hp' : ¬ played.length = 0 := by simpa [List.length_eq_zero] using hp
    simp [compareMelodies, hp']
  · rintro ht rfl
    have ht' : ¬ target.length = 0 := by simpa [List.length_eq_zero] using ht
    simp [compareMelodies, ht']

theorem compareMelodies_degenerate_total_witness :
    compareMelodies [⟨60, none⟩] [] none =
      { score := 0, pitchScore := 0, rhythmScore := none,
        targetMarks := [NoteStatus.missing], playedMarks := [], timingMarks := none } :=
  (compareMelodies_degenerate_total [⟨60, none⟩] [] none).2.2 (by decide) rfl

/-- C10: with rhythm mode on but a zero (falsy) tempo, the comparator takes
the pitch-only exit for non-empty inputs: the returned score equals the
pitch score, the rhythm score and timing marks are absent, and the result
coincides with the options-free (pitch-only) result, so `60 / tempo` is
never consulted. -/
theorem rhythm_zero_tempo_pitch_only (target : Melody) (played : List PlayedNote)
    (ht : target ≠ []) (hp : played ≠ []) :
    (compareMelodies target played (some ⟨true, 0⟩)).score =
      (compareMelodies target played (some ⟨true, 0⟩)).pitchScore ∧
    (compareMelodies target played (some ⟨true, 0⟩)).rhythmScore = none ∧
    (compareMelodies target played (some ⟨true, 0⟩)).timingMarks = none ∧
    compareMelodies target played (some ⟨true, 0⟩) = compareMelodies target played none := by
  have ht' : ¬ target.length = 0 := by simpa [List.length_eq_zero] using ht
  have hp' : ¬ played.length = 0 := by simpa [List.length_eq_zero] using hp
  have hc : ¬ ((⟨true, 0⟩ : CompareOptions).rhythmMode = true ∧
      (⟨true, 0⟩ : CompareOptions).tempo ≠ 0) := by simp
  have key : compareMelodies target played (some ⟨true, 0⟩) =
      compareMelodies target played none := by
    dsimp only [compareMelodies]
    rw [if_neg ht', if_neg hp', if_neg ht', if_neg hp', if_neg hc]
  refine ⟨?_, ?_, ?_, key⟩
  · rw [key]
    dsimp only [compareMelodies]
    rw [if_neg ht', if_neg hp']
  · rw [key]
    dsimp only [compareMelodies]
    rw [if_neg ht', if_neg hp']
  · rw [key]
    dsimp only [compareMelodies]
    rw [if_neg ht', if_neg hp']

theorem rhythm_zero_tempo_pitch_only_witness :
    (compareMelodies [⟨60, none⟩] [⟨62, 0⟩] (some ⟨true, 0⟩)).score =
      (compareMelodies [⟨60, none⟩] [⟨62, 0⟩] (some ⟨true, 0⟩)).pitchScore ∧
    (compareMelodies [⟨60, none⟩] [⟨62, 0⟩] (some ⟨true, 0⟩)).rhythmScore = none ∧
    (compareMelodies [⟨60, none⟩] [⟨62, 0⟩] (some ⟨true, 0⟩)).timingMarks = none ∧
    compareMelodies [⟨60, none⟩] [⟨62, 0⟩] (some ⟨true, 0⟩) =
      compareMelodies [⟨60, none⟩] [⟨62, 0⟩] none :=
  rhythm_zero_tempo_pitch_only [⟨60, none⟩] [⟨62, 0⟩] (by decide) (by decide)

/-- C2: recording a round sets the streak to the prior streak plus one
exactly when the recorded score is 100 (the code's notion of a perfect
round) and to zero otherwise; under the pitch-only scoring policy the
recorded score is the pitch score, so a round is perfect exactly when
`pitchScore == 100`. -/
theorem recordRound_streak_update (timestamp score : ℤ) (difficulty : DifficultyConfig)
    (replaysUsed : ℤ) (stats : SessionStats) :
    ((recordRound timestamp score difficulty replaysUsed stats).1.currentStreak =
      if score = 100 then stats.currentStreak + 1 else 0) ∧
    ∀ (target : Melody) (played : List PlayedNote),
      (compareMelodies target played none).score =
        (compareMelodies target played none).pitchScore := by
  constructor
  · by_cases h : score = 100 <;> simp [recordRound, h]
  · intro target played
    dsimp only [compareMelodies]
    by_cases ht : target.length = 0
    · rw [if_pos ht]
    · rw [if_neg ht]
      by_cases hp : played.length = 0
      · rw [if_pos hp]
      · rw [if_neg hp]

/-! Support for the rhythm-scoring claim: bounds and distinctness of the
backtrack pairs, and characterization of the rhythm fold. -/

theorem backtrack_mem_bounds (t p : List ℤ) :
    ∀ i j, ∀ pr ∈ backtrack t p i j, pr.1 < i ∧ pr.2 < j := by
  have main : ∀ n i j, i + j ≤ n → ∀ pr ∈ backtrack t p i j, pr.1 < i ∧ pr.2 < j := by
    intro n
    induction n using Nat.strong_induction_on with
    | _ n ih =>
      intro i j hn pr hpr
      match i, j with
      | 0, j =>
        rw [backtrack_zero_left] at hpr
        simp at hpr
      | i' + 1, 0 =>
        rw [backtrack_zero_right] at hpr
        simp at hpr
      | i' + 1, j' + 1 =>
        rw [backtrack_succ_succ] at hpr
        by_cases hc : t.getD i' 0 = p.getD j' 0
        · rw [if_pos hc] at hpr
          rcases List.mem_cons.mp hpr with rfl | h
          · exact ⟨Nat.lt_succ_self _, Nat.lt_succ_self _⟩
          · have := ih (i' + j') (by omega) i' j' (by omega) pr h
            exact ⟨by omega, by omega⟩
        · rw [if_neg hc] at hpr
          by_cases hgt : lcsTable t p i' (j' + 1) > lcsTable t p (i' + 1) j'
          · rw [if_pos hgt] at hpr
            have := ih (i' + (j' + 1)) (by omega) i' (j' + 1) (by omega) pr hpr
            exact ⟨by omega, this.2⟩
          · rw [if_neg hgt] at hpr
            have := ih ((i' + 1) + j') (by omega) (i' + 1) j' (by omega) pr hpr
            exact ⟨this.1, by omega⟩
  intro i j
  exact main (i + j) i j le_rfl

theorem backtrack_pairwise (t p : List ℤ) :
    ∀ i j, List.Pairwise (fun a b => b.1 < a.1 ∧ b.2 < a.2) (backtrack t p i j) := by
  have main : ∀ n i j, i + j ≤ n →
      List.Pairwise (fun a b => b.1 < a.1 ∧ b.2 < a.2) (backtrack t p i j) := by
    intro n
    induction n using Nat.strong_induction_on with
    | _ n ih =>
      intro i j hn
      match i, j with
      | 0, j =>
        rw [backtrack_zero_left]
        exact List.Pairwise.nil
      | i' + 1, 0 =>
        rw [backtrack_zero_right]
        exact List.Pairwise.nil
      | i' + 1, j' + 1 =>
        rw [backtrack_succ_succ]
        by_cases hc : t.getD i' 0 = p.getD j' 0
        · rw [if_pos hc]
          refine List.pairwise_cons.mpr ⟨?_, ih (i' + j') (by omega) i' j' (by omega)⟩
          intro pr hpr
          exact backtrack_mem_bounds t p i' j' pr hpr
        · rw [if_neg hc]
          by_cases hgt : lcsTable t p i' (j' + 1) > lcsTable t p (i' + 1) j'
          · rw [if_pos hgt]
            exact ih (i' + (j' + 1)) (by omega) i' (j' + 1) (by omega)
          · rw [if_neg hgt]
            exact ih ((i' + 1) + j') (by omega) (i' + 1) j' (by omega)
  intro i j
  exact main (i + j) i j le_rfl

theorem matchedPairsLCS_mem_bounds (t p : List ℤ) (pr : ℕ × ℕ)
    (h : pr ∈ matchedPairsLCS t p) : pr.1 < t.length ∧ pr.2 < p.length := by
  rw [matchedPairsLCS, List.mem_reverse] at h
  exact backtrack_mem_bounds t p t.length p.length pr h

theorem matchedPairsLCS_pairwise_fst_ne (t p : List ℤ) :
    List.Pairwise (fun a b : ℕ × ℕ => a.1 ≠ b.1) (matchedPairsLCS t p) := by
  rw [matchedPairsLCS, List.pairwise_reverse]
  exact (backtrack_pairwise t p t.length p.length).imp fun h => by omega

theorem rhythmStep_fst (eo : List ℚ) (played : List PlayedNote)
    (acc : ℤ × List TimingStatus) (pr : ℕ × ℕ) :
    (rhythmStep eo played acc pr).1 = acc.1 +
      (if |(played.getD pr.2 default).time - eo.getD pr.1 0| ≤ 1/10 then (100 : ℤ)
       else if |(played.getD pr.2 default).time - eo.getD pr.1 0| ≤ 1/5 then 50 else 0) := by
  dsimp only [rhythmStep]
  split_ifs <;> rfl

theorem rhythmStep_snd_length (eo : List ℚ) (played : List PlayedNote)
    (acc : ℤ × List TimingStatus) (pr : ℕ × ℕ) :
    (rhythmStep eo played acc pr).2.length = acc.2.length := by
  dsimp only [rhythmStep]
  split_ifs <;> simp

theorem rhythmFold_fst (eo : List ℚ) (played : List PlayedNote) :
    ∀ (pairs : List (ℕ × ℕ)) (acc : ℤ × List TimingStatus),
      (pairs.foldl (rhythmStep eo played) acc).1 = acc.1 +
        (pairs.map (fun pr =>
          if |(played.getD pr.2 default).time - eo.getD pr.1 0| ≤ 1/10 then (100 : ℤ)
          else if |(played.getD pr.2 default).time - eo.getD pr.1 0| ≤ 1/5 then 50
          else 0)).sum := by
  intro pairs
  induction pairs with
  | nil => intro acc; simp
  | cons a rest ih =>
    intro acc
    rw [List.foldl_cons, ih, rhythmStep_fst, List.map_cons, List.sum_cons]
    ring

theorem rhythmFold_snd_length (eo : List ℚ) (played : List PlayedNote) :
    ∀ (pairs : List (ℕ × ℕ)) (acc : ℤ × List TimingStatus),
      (pairs.foldl (rhythmStep eo played) acc).2.length = acc.2.length := by
  intro pairs
  induction pairs with
  | nil => intro acc; rfl
  | cons a rest ih =>
    intro acc
    rw [List.foldl_cons, ih, rhythmStep_snd_length]

theorem rhythmFold_snd_untouched (eo : List ℚ) (played : List PlayedNote) :
    ∀ (pairs : List (ℕ × ℕ)) (acc : ℤ × List TimingStatus) (idx : ℕ),
      idx ∉ pairs.map Prod.fst →
      ((pairs.foldl (rhythmStep eo played) acc).2)[idx]? = (acc.2)[idx]? := by
  intro pairs
  induction pairs with
  | nil => intro acc idx _; rfl
  | cons a rest ih =>
    intro acc idx hidx
    rw [List.map_cons, List.mem_cons] at hidx
    push_neg at hidx
    rw [List.foldl_cons, ih _ idx hidx.2]
    dsimp only [rhythmStep]
    split_ifs <;> exact List.getElem?_set_ne (fun h => hidx.1 h.symm)

theorem rhythmStep_snd_self (eo : List ℚ) (played : List PlayedNote)
    (acc : ℤ × List TimingStatus) (pr : ℕ × ℕ) (h : pr.1 < acc.2.length) :
    ((rhythmStep eo played acc pr).2)[pr.1]? = some
      (if |(played.getD pr.2 default).time - eo.getD pr.1 0| ≤ 1/10 then TimingStatus.onTime
       else if (played.getD pr.2 default).time - eo.getD pr.1 0 < 0 then TimingStatus.early
       else TimingStatus.late) := by
  dsimp only [rhythmStep]
  split_ifs with h1 h2 <;> rw [List.getElem?_set_self (by simpa using h)]

theorem rhythmFold_snd_matched (eo : List ℚ) (played : List PlayedNote) :
    ∀ (pairs : List (ℕ × ℕ)) (acc : ℤ × List TimingStatus),
      List.Pairwise (fun a b : ℕ × ℕ => a.1 ≠ b.1) pairs →
      ∀ pr ∈ pairs, pr.1 < acc.2.length →
        ((pairs.foldl (rhythmStep eo played) acc).2)[pr.1]? = some
          (if |(played.getD pr.2 default).time - eo.getD pr.1 0| ≤ 1/10 then
            TimingStatus.onTime
          else if (played.getD pr.2 default).time - eo.getD pr.1 0 < 0 then
            TimingStatus.early
          else TimingStatus.late) := by
  intro pairs
  induction pairs with
  | nil => intro acc _ pr h; simp at h
  | cons a rest ih =>
    intro acc hpw pr hmem hlt
    obtain ⟨hhead, htail⟩ := List.pairwise_cons.mp hpw
    rcases List.mem_cons.mp hmem with rfl | hmem'
    · rw [List.foldl_cons, rhythmFold_snd_untouched eo played rest _ pr.1 ?_ ,
        rhythmStep_snd_self eo played acc pr hlt]
      intro hin
      obtain ⟨q, hq, hq1⟩ := List.mem_map.mp hin
      exact hhead q hq hq1.symm
    · rw [List.foldl_cons]
      exact ih (rhythmStep eo played acc a) htail pr hmem'
        (by rw [rhythmStep_snd_length]; exact hlt)

theorem expectedOnsetsFrom_length (bd : ℚ) :
    ∀ (mel : Melody) (acc : ℚ), (expectedOnsetsFrom bd mel acc).length = mel.length := by
  intro mel
  induction mel with
  | nil => intro acc; rfl
  | cons note rest ih =>
    intro acc
    simp [expectedOnsetsFrom, ih]

theorem expectedOnsetsFrom_getD (bd : ℚ) :
    ∀ (mel : Melody) (i : ℕ) (acc : ℚ), i < mel.length →
      (expectedOnsetsFrom bd mel acc).getD i 0 =
        (acc + ((mel.take i).map fun n => n.duration.getD 1).sum) * bd := by
  intro mel
  induction mel with
  | nil => intro i acc h; simp at h
  | cons note rest ih =>
    intro i acc h
    cases i with
    | zero => simp [expectedOnsetsFrom]
    | succ i' =>
      simp only [expectedOnsetsFrom, List.getD_cons_succ]
      rw [ih i' (acc + note.duration.getD 1) (by simpa using h)]
      rw [List.take_succ_cons, List.map_cons, List.sum_cons]
      ring

/-- C7: with rhythm mode on and a positive tempo, for every LCS-matched pair
the timing error (played onset minus expected onset, expected onsets being
the cumulative preceding durations times `60 / tempo`) is classified as:
absolute error ≤ 0.1 s → 100 points and `on-time`; ≤ 0.2 s → 50 points and
`early`/`late` by sign; otherwise 0 points and `early`/`late` by sign.
`rhythmScore` is the rounded mean of the points over the matched pairs (0 if
none), unmatched target notes keep the default `on-time` mark, and the
combined score is `round(0.6 × pitchScore + 0.4 × rhythmScore)`; in
particular for a one-note target of duration 1 beat at 120 BPM, onset 0.0
scores 100 `on-time`, 0.15 scores 50 `late`, 0.30 scores 0 `late`. -/
theorem rhythm_scoring_spec (target : Melody) (played : List PlayedNote) (tempo : ℚ)
    (ht : target ≠ []) (hp : played ≠ []) (htempo : 0 < tempo) :
    (∃ rs : ℤ,
      (compareMelodies target played (some ⟨true, tempo⟩)).rhythmScore = some rs ∧
      rs = (if (matchedPairsLCS (target.map (·.midi)) (played.map (·.midi))).length > 0 then
        jsRound ((((matchedPairsLCS (target.map (·.midi)) (played.map (·.midi))).map
          (fun pr =>
            if |(played.getD pr.2 default).time -
                ((target.take pr.1).map fun n => n.duration.getD 1).sum * (60 / tempo)| ≤ 1/10
            then (100 : ℤ)
            else if |(played.getD pr.2 default).time -
                ((target.take pr.1).map fun n => n.duration.getD 1).sum * (60 / tempo)| ≤ 1/5
            then 50 else 0)).sum : ℚ) /
          ((matchedPairsLCS (target.map (·.midi)) (played.map (·.midi))).length : ℚ))
        else 0) ∧
      (compareMelodies target played (some ⟨true, tempo⟩)).score =
        jsRound (6/10 * ((compareMelodies target played (some ⟨true, tempo⟩)).pitchScore : ℚ)
          + 4/10 * (rs : ℚ))) ∧
    (∃ marks : List TimingStatus,
      (compareMelodies target played (some ⟨true, tempo⟩)).timingMarks = some marks ∧
      marks.length = target.length ∧
      (∀ i, i < target.length →
        i ∉ (matchedPairsLCS (target.map (·.midi)) (played.map (·.midi))).map Prod.fst →
        marks[i]? = some TimingStatus.onTime) ∧
      (∀ pr ∈ matchedPairsLCS (target.map (·.midi)) (played.map (·.midi)),
        marks[pr.1]? = some
          (if |(played.getD pr.2 default).time -
              ((target.take pr.1).map fun n => n.duration.getD 1).sum * (60 / tempo)| ≤ 1/10
          then TimingStatus.onTime
          else if (played.getD pr.2 default).time -
              ((target.take pr.1).map fun n => n.duration.getD 1).sum * (60 / tempo) < 0
          then TimingStatus.early else TimingStatus.late))) ∧
    ((compareMelodies [⟨60, some 1⟩] [⟨60, 0⟩] (some ⟨true, 120⟩)).rhythmScore = some 100 ∧
     (compareMelodies [⟨60, some 1⟩] [⟨60, 0⟩] (some ⟨true, 120⟩)).timingMarks =
        some [TimingStatus.onTime] ∧
     (compareMelodies [⟨60, some 1⟩] [⟨60, 3/20⟩] (some ⟨true, 120⟩)).rhythmScore = some 50 ∧
     (compareMelodies [⟨60, some 1⟩] [⟨60, 3/20⟩] (some ⟨true, 120⟩)).timingMarks =
        some [TimingStatus.late] ∧
     (compareMelodies [⟨60, some 1⟩] [⟨60, 3/10⟩] (some ⟨true, 120⟩)).rhythmScore = some 0 ∧
     (compareMelodies [⟨60, some 1⟩] [⟨60, 3/10⟩] (some ⟨true, 120⟩)).timingMarks =
        some [TimingStatus.late]) := by
  have ht' : ¬ target.length = 0 := by simpa using ht
  have hp' : ¬ played.length = 0 := by simpa using hp
  have hc : (⟨true, tempo⟩ : CompareOptions).rhythmMode = true ∧
      (⟨true, tempo⟩ : CompareOptions).tempo ≠ 0 := ⟨rfl, ne_of_gt htempo⟩
  have hbound : ∀ pr ∈ matchedPairsLCS (target.map (·.midi)) (played.map (·.midi)),
      pr.1 < target.length ∧ pr.2 < played.length := by
    intro pr hpr
    have h := matchedPairsLCS_mem_bounds _ _ pr hpr
    simpa using h
  have hgetD : ∀ pr ∈ matchedPairsLCS (target.map (·.midi)) (played.map (·.midi)),
      (expectedOnsetsFrom (60 / tempo) target 0).getD pr.1 0 =
        ((target.take pr.1).map fun n => n.duration.getD 1).sum * (60 / tempo) := by
    intro pr hpr
    rw [expectedOnsetsFrom_getD (60 / tempo) target pr.1 0 (hbound pr hpr).1]
    ring
  refine ⟨?_, ?_, ?_⟩
  · refine ⟨if (matchedPairsLCS (target.map (·.midi)) (played.map (·.midi))).length > 0 then
      jsRound ((((matchedPairsLCS (target.map (·.midi)) (played.map (·.midi))).foldl
        (rhythmStep (expectedOnsetsFrom (60 / tempo) target 0) played)
        (0, List.replicate target.length TimingStatus.onTime)).1 : ℚ) /
        ((matchedPairsLCS (target.map (·.midi)) (played.map (·.midi))).length : ℚ))
      else 0, ?_, ?_, ?_⟩
    · dsimp only [compareMelodies]
      rw [if_neg ht', if_neg hp', if_pos hc]
    · have hfold : ((matchedPairsLCS (target.map (·.midi)) (played.map (·.midi))).foldl
          (rhythmStep (expectedOnsetsFrom (60 / tempo) target 0) played)
          (0, List.replicate target.length TimingStatus.onTime)).1 =
          ((matchedPairsLCS (target.map (·.midi)) (played.map (·.midi))).map
            (fun pr =>
              if |(played.getD pr.2 default).time -
                  ((target.take pr.1).map fun n => n.duration.getD 1).sum * (60 / tempo)| ≤ 1/10
              then (100 : ℤ)
              else if |(played.getD pr.2 default).time -
                  ((target.take pr.1).map fun n => n.duration.getD 1).sum * (60 / tempo)| ≤ 1/5
              then 50 else 0)).sum := by
        rw [rhythmFold_fst, zero_add]
        exact congrArg List.sum (List.map_congr_left fun pr hpr => by rw [hgetD pr hpr])
      rw [hfold]
    · dsimp only [compareMelodies]
      rw [if_neg ht', if_neg hp', if_pos hc]
  · refine ⟨((matchedPairsLCS (target.map (·.midi)) (played.map (·.midi))).foldl
      (rhythmStep (expectedOnsetsFrom (60 / tempo) target 0) played)
      (0, List.replicate target.length TimingStatus.onTime)).2, ?_, ?_, ?_, ?_⟩
    · dsimp only [compareMelodies]
      rw [if_neg ht', if_neg hp', if_pos hc]
    · rw [rhythmFold_snd_length]
      simp
    · intro i hi hnotin
      rw [rhythmFold_snd_untouched _ _ _ _ _ hnotin]
      simp [List.getElem?_replicate, hi]
    · intro pr hpr
      rw [rhythmFold_snd_matched _ _ _ _ (matchedPairsLCS_pairwise_fst_ne _ _) pr hpr
        (by simpa using (hbound pr hpr).1), hgetD pr hpr]
  · refine ⟨?_, ?_, ?_, ?_, ?_, ?_⟩ <;> with_unfolding_all rfl

theorem rhythm_scoring_spec_witness :
    (compareMelodies [⟨60, some 1⟩] [⟨60, 0⟩] (some ⟨true, 120⟩)).rhythmScore = some 100 ∧
    (compareMelodies [⟨60, some 1⟩] [⟨60, 3/20⟩] (some ⟨true, 120⟩)).rhythmScore = some 50 ∧
    (compareMelodies [⟨60, some 1⟩] [⟨60, 3/10⟩] (some ⟨true, 120⟩)).rhythmScore = some 0 :=
  ⟨(rhythm_scoring_spec [⟨60, some 1⟩] [⟨60, 0⟩] 120 (by decide) (by decide)
      (by with_unfolding_all decide)).2.2.1,
   (rhythm_scoring_spec [⟨60, some 1⟩] [⟨60, 0⟩] 120 (by decide) (by decide)
      (by with_unfolding_all decide)).2.2.2.2.1,
   (rhythm_scoring_spec [⟨60, some 1⟩] [⟨60, 0⟩] 120 (by decide) (by decide)
      (by with_unfolding_all decide)).2.2.2.2.2.2.1⟩

/-! Support for the generator claim: every selection step yields an
in-bounds scale index. -/

theorem getD_mem_of_lt {α : Type} (l : List α) (d : α) (i : ℕ) (h : i < l.length) :
    l.getD i d ∈ l := by
  rw [List.getD_eq_getElem?_getD, List.getElem?_eq_getElem h]
  exact List.getElem_mem h

theorem getLastD_mem (l : List ℕ) : ∀ (d : ℕ), l ≠ [] → l.getLastD d ∈ l := by
  induction l with
  | nil => intro d h; exact absurd rfl h
  | cons a as ih =>
    intro d _
    cases as with
    | nil => simp
    | cons b bs =>
      rw [List.getLastD_cons]
      exact List.mem_cons_of_mem a (ih a (by simp))

theorem selectWeighted_mem {α : Type} :
    ∀ (l : List (α × ℚ)) (r : ℚ) (c : α), selectWeighted l r = some c →
      c ∈ l.map Prod.fst := by
  intro l
  induction l with
  | nil => intro r c h; simp [selectWeighted] at h
  | cons a rest ih =>
    intro r c h
    rw [selectWeighted] at h
    by_cases hle : r - a.2 ≤ 0
    · rw [if_pos hle] at h
      obtain rfl : a.1 = c := by injection h
      simp
    · rw [if_neg hle] at h
      exact List.mem_cons_of_mem _ (ih (r - a.2) c h)

theorem weightedPick_mem (candidateIndices : List ℕ) (scaleNotes : List ℤ)
    (currentIndex : ℕ) (chordTonePCs : List ℤ) (rootPC fifthPC : Option ℤ)
    (lastLeapDir : Option LeapDir) (resolving : Bool) (r : ℚ)
    (h : candidateIndices ≠ []) :
    weightedPick candidateIndices scaleNotes currentIndex chordTonePCs rootPC fifthPC
      lastLeapDir resolving r ∈ candidateIndices := by
  dsimp only [weightedPick]
  cases hsel : selectWeighted (candidateIndices.zip (candidateIndices.map
    (noteWeight scaleNotes currentIndex chordTonePCs rootPC fifthPC lastLeapDir resolving)))
    (r * (candidateIndices.map (noteWeight scaleNotes currentIndex chordTonePCs rootPC
      fifthPC lastLeapDir resolving)).sum) with
  | none => simpa using getLastD_mem candidateIndices 0 h
  | some c =>
    have hc := selectWeighted_mem _ _ _ hsel
    obtain ⟨⟨c1, c2⟩, hmem, hfst⟩ := List.mem_map.mp hc
    obtain rfl : c1 = c := hfst
    simpa using (List.of_mem_zip hmem).1

theorem randomIndexNearCenterCore_lt (length : ℕ) (r : ℚ) (h : 1 ≤ length) :
    randomIndexNearCenterCore length r < length := by
  dsimp only [randomIndexNearCenterCore]
  omega

theorem randomIndexNearCenterDraw_lt (length : ℕ) (rand : ℕ → ℚ) (k : ℕ)
    (h : 1 ≤ length) : (randomIndexNearCenterDraw length rand k).1 < length := by
  dsimp only [randomIndexNearCenterDraw]
  by_cases hl : length ≤ 1
  · rw [if_pos hl]
    omega
  · rw [if_neg hl]
    exact randomIndexNearCenterCore_lt length (rand k) h

theorem jsFloor_toNat_lt (r : ℚ) (len : ℕ) (h0 : 0 ≤ r) (h1 : r < 1) (hl : 1 ≤ len) :
    (jsFloor (r * (len : ℚ))).toNat < len := by
  have hnn : (0 : ℚ) ≤ r * len := by positivity
  have hlt : r * (len : ℚ) < len := by
    calc r * (len : ℚ) < 1 * len := by
          apply mul_lt_mul_of_pos_right h1
          exact_mod_cast Nat.lt_of_lt_of_le Nat.zero_lt_one hl
      _ = len := one_mul _
  have hfl : jsFloor (r * (len : ℚ)) < (len : ℤ) := by
    rw [jsFloor, Int.floor_lt]
    exact_mod_cast hlt
  have hfnn : 0 ≤ jsFloor (r * (len : ℚ)) := by
    rw [jsFloor]
    exact Int.le_floor.mpr (by exact_mod_cast hnn)
  omega

theorem candidateIdxList_mem (scaleNotes : List ℤ) (currentMidi : ℤ) (maxInterval : ℕ)
    (j : ℕ) :
    j ∈ candidateIdxList scaleNotes currentMidi maxInterval ↔
      j < scaleNotes.length ∧ 0 < (scaleNotes.getD j 0 - currentMidi).natAbs ∧
        (scaleNotes.getD j 0 - currentMidi).natAbs ≤ maxInterval := by
  simp [candidateIdxList, List.mem_filter, List.mem_range, and_assoc]

theorem candidateIdxList_eq_nil (scaleNotes : List ℤ) (currentMidi : ℤ)
    (maxInterval : ℕ) (h : candidateIdxList scaleNotes currentMidi maxInterval = []) :
    ∀ q ∈ scaleNotes, ¬ (0 < (q - currentMidi).natAbs ∧
      (q - currentMidi).natAbs ≤ maxInterval) := by
  intro q hq hcond
  obtain ⟨n, hn, rfl⟩ := List.getElem_of_mem hq
  have hget : scaleNotes.getD n 0 = scaleNotes[n] := by
    rw [List.getD_eq_getElem?_getD, List.getElem?_eq_getElem hn]
    rfl
  have : n ∈ candidateIdxList scaleNotes currentMidi maxInterval := by
    rw [candidateIdxList_mem]
    rw [hget]
    exact ⟨hn, hcond.1, hcond.2⟩
  rw [h] at this
  simp at this

theorem chordToneIdxList_lt (scaleNotes chordTonePCs : List ℤ) (i : ℕ)
    (h : i ∈ chordToneIdxList scaleNotes chordTonePCs) : i < scaleNotes.length := by
  have := List.mem_filter.mp h
  simpa [List.mem_range] using this.1

theorem walk_length (config : DifficultyConfig) (s cpcs : List ℤ) (rPC fPC : Option ℤ)
    (rand : ℕ → ℚ) : ∀ (rem ci : ℕ) (lld : Option LeapDir) (k : ℕ),
    (walk config s cpcs rPC fPC rand rem ci lld k).length = rem := by
  intro rem
  induction rem with
  | zero => intro ci lld k; rfl
  | succ r ih =>
    intro ci lld k
    simp only [walk, List.length_cons]
    rw [ih]

theorem walk_mem (config : DifficultyConfig) (s cpcs : List ℤ) (rPC fPC : Option ℤ)
    (rand : ℕ → ℚ) (hr : ∀ n, 0 ≤ rand n ∧ rand n < 1) (hs : s ≠ []) :
    ∀ (rem ci : ℕ) (lld : Option LeapDir) (k : ℕ),
    ∀ note ∈ walk config s cpcs rPC fPC rand rem ci lld k, note.midi ∈ s := by
  have hlen : 1 ≤ s.length := List.length_pos.mpr hs
  intro rem
  induction rem with
  | zero => intro ci lld k note h; simp [walk] at h
  | succ r ih =>
    intro ci lld k note h
    cases hemp : (candidateIdxList s (s.getD ci 0) config.maxInterval).isEmpty with
    | true =>
      simp only [walk, hemp, if_true] at h
      rcases List.mem_cons.mp h with rfl | h'
      · exact getD_mem_of_lt s 0 _ (jsFloor_toNat_lt (rand k) s.length (hr k).1 (hr k).2 hlen)
      · exact ih _ _ _ note h'
    | false =>
      simp only [walk, hemp, if_false] at h
      have hne : candidateIdxList s (s.getD ci 0) config.maxInterval ≠ [] :=
        List.isEmpty_eq_false.mp hemp
      rcases List.mem_cons.mp h with rfl | h'
      · refine getD_mem_of_lt s 0 _ ?_
        have hmem := weightedPick_mem _ s ci cpcs rPC fPC lld (r == 0) (rand k) hne
        exact ((candidateIdxList_mem s (s.getD ci 0) config.maxInterval _).mp hmem).1
      · exact ih _ _ _ note h'

theorem walk_chain (config : DifficultyConfig) (s cpcs : List ℤ) (rPC fPC : Option ℤ)
    (rand : ℕ → ℚ) (hr : ∀ n, 0 ≤ rand n ∧ rand n < 1) (hs : s ≠ []) :
    ∀ (rem ci : ℕ) (lld : Option LeapDir) (k : ℕ) (d : Option ℚ), ci < s.length →
    List.Chain' (fun a b : MelodyNote =>
      (b.midi - a.midi).natAbs ≤ config.maxInterval ∨
      ∀ q ∈ s, ¬ (0 < (q - a.midi).natAbs ∧ (q - a.midi).natAbs ≤ config.maxInterval))
      (⟨s.getD ci 0, d⟩ :: walk config s cpcs rPC fPC rand rem ci lld k) := by
  have hlen : 1 ≤ s.length := List.length_pos.mpr hs
  intro rem
  induction rem with
  | zero =>
    intro ci lld k d _
    simp only [walk]
    exact List.chain'_singleton _
  | succ r ih =>
    intro ci lld k d hci
    cases hemp : (candidateIdxList s (s.getD ci 0) config.maxInterval).isEmpty with
    | true =>
      simp only [walk, hemp, if_true]
      rw [List.chain'_cons]
      constructor
      · right
        exact candidateIdxList_eq_nil s (s.getD ci 0) config.maxInterval
          (List.isEmpty_iff.mp (by rw [hemp]))
      · exact ih _ _ _ _ (jsFloor_toNat_lt (rand k) s.length (hr k).1 (hr k).2 hlen)
    | false =>
      simp only [walk, hemp, if_false]
      rw [List.chain'_cons]
      have hne : candidateIdxList s (s.getD ci 0) config.maxInterval ≠ [] :=
        List.isEmpty_eq_false.mp hemp
      have hmem := weightedPick_mem _ s ci cpcs rPC fPC lld (r == 0) (rand k) hne
      have hprops := (candidateIdxList_mem s (s.getD ci 0) config.maxInterval _).mp hmem
      constructor
      · left
        exact hprops.2.2
      · exact ih _ _ _ _ hprops.1

theorem getScaleNotesInRange_mem (scalePCs : List ℤ) (lowMidi highMidi x : ℤ)
    (h : x ∈ getScaleNotesInRange scalePCs lowMidi highMidi) :
    lowMidi ≤ x ∧ x ≤ highMidi := by
  have hchrom : ∀ y ∈ (List.range (highMidi - lowMidi + 1).toNat).map
      (fun i : ℕ => lowMidi + (i : ℤ)), lowMidi ≤ y ∧ y ≤ highMidi := by
    intro y hy
    obtain ⟨i, hi, rfl⟩ := List.mem_map.mp hy
    rw [List.mem_range] at hi
    omega
  dsimp only [getScaleNotesInRange] at h
  by_cases hemp : scalePCs.isEmpty
  · rw [if_pos hemp] at h
    exact hchrom x h
  · rw [if_neg hemp] at h
    exact hchrom x (List.mem_filter.mp h).1

theorem generateMelody_empty_eq (config : DifficultyConfig) (cpcs : List ℤ)
    (rand : ℕ → ℚ) :
    generateMelody config [] cpcs rand =
      (fallbackFragment.take config.noteCount).mapIdx fun i midi =>
        ⟨midi, if config.rhythmMode then some (randomDuration (rand i)) else none⟩ := by
  simp [generateMelody]

theorem generateMelody_empty_length (config : DifficultyConfig) (cpcs : List ℤ)
    (rand : ℕ → ℚ) :
    (generateMelody config [] cpcs rand).length = min config.noteCount 4 := by
  rw [generateMelody_empty_eq, List.length_mapIdx, List.length_take]
  rfl

theorem generateMelody_empty_mem (config : DifficultyConfig) (cpcs : List ℤ)
    (rand : ℕ → ℚ) :
    ∀ note ∈ generateMelody config [] cpcs rand, note.midi ∈ fallbackFragment := by
  rw [generateMelody_empty_eq]
  intro note h
  obtain ⟨i, hi, rfl⟩ := List.mem_mapIdx.mp h
  exact List.take_subset _ _ (List.getElem_mem hi)

theorem fragment_chain (rhythmMode : Bool) (rand : ℕ → ℚ) (n : ℕ) :
    List.Chain' (fun a b : MelodyNote => (b.midi - a.midi).natAbs ≤ 2)
      ((fallbackFragment.take n).mapIdx fun i midi =>
        ⟨midi, if rhythmMode then some (randomDuration (rand i)) else none⟩) := by
  match n with
  | 0 =>
    rw [show fallbackFragment.take 0 = [] from rfl, List.mapIdx_nil]
    exact List.chain'_nil
  | 1 =>
    rw [show fallbackFragment.take 1 = [60] from rfl, List.mapIdx_cons, List.mapIdx_nil]
    exact List.chain'_singleton _
  | 2 =>
    rw [show fallbackFragment.take 2 = [60, 62] from rfl, List.mapIdx_cons,
      List.mapIdx_cons, List.mapIdx_nil]
    exact List.chain'_cons.mpr ⟨by norm_num, List.chain'_singleton _⟩
  | 3 =>
    rw [show fallbackFragment.take 3 = [60, 62, 64] from rfl, List.mapIdx_cons,
      List.mapIdx_cons, List.mapIdx_cons, List.mapIdx_nil]
    exact List.chain'_cons.mpr ⟨by norm_num,
      List.chain'_cons.mpr ⟨by norm_num, List.chain'_singleton _⟩⟩
  | (k + 4) =>
    rw [List.take_of_length_le (by norm_num [fallbackFragment]),
      show fallbackFragment = [60, 62, 64, 65] from rfl, List.mapIdx_cons,
      List.mapIdx_cons, List.mapIdx_cons, List.mapIdx_cons, List.mapIdx_nil]
    exact List.chain'_cons.mpr ⟨by norm_num,
      List.chain'_cons.mpr ⟨by norm_num,
        List.chain'_cons.mpr ⟨by norm_num, List.chain'_singleton _⟩⟩⟩

theorem generateMelody_empty_chain (config : DifficultyConfig) (cpcs : List ℤ)
    (rand : ℕ → ℚ) :
    List.Chain' (fun a b : MelodyNote => (b.midi - a.midi).natAbs ≤ 2)
      (generateMelody config [] cpcs rand) := by
  rw [generateMelody_empty_eq]
  exact fragment_chain config.rhythmMode rand config.noteCount

theorem generateMelody_nonempty_shape (config : DifficultyConfig) (s cpcs : List ℤ)
    (rand : ℕ → ℚ) (hs : s ≠ []) :
    ∃ (ci : ℕ) (d : Option ℚ) (rPC fPC : Option ℤ) (k : ℕ),
      ci < s.length ∧
      generateMelody config s cpcs rand =
        ⟨s.getD ci 0, d⟩ ::
          walk config s cpcs rPC fPC rand (config.noteCount - 1) ci none k := by
  have hse : s.isEmpty = false := List.isEmpty_eq_false.mpr hs
  have hlen : 1 ≤ s.length := List.length_pos.mpr hs
  by_cases hcti : (chordToneIdxList s cpcs).length > 0
  · refine ⟨(chordToneIdxList s cpcs).getD
        (randomIndexNearCenterDraw (chordToneIdxList s cpcs).length rand 0).1 0,
      (durDraw config.rhythmMode rand
        (randomIndexNearCenterDraw (chordToneIdxList s cpcs).length rand 0).2).1,
      (s.find? fun m => decide (Int.tmod m 12 ∈ cpcs)).map (fun m => Int.tmod m 12),
      ((s.find? fun m => decide (Int.tmod m 12 ∈ cpcs)).map
        (fun m => Int.tmod m 12)).map (fun r => Int.tmod (r + 7) 12),
      (durDraw config.rhythmMode rand
        (randomIndexNearCenterDraw (chordToneIdxList s cpcs).length rand 0).2).2,
      ?_, ?_⟩
    · exact chordToneIdxList_lt s cpcs _ (getD_mem_of_lt _ 0 _
        (randomIndexNearCenterDraw_lt _ rand 0 (by omega)))
    · simp only [generateMelody, hse, if_false]
      rw [if_pos hcti]
      rfl
  · refine ⟨(randomIndexNearCenterDraw s.length rand 0).1,
      (durDraw config.rhythmMode rand (randomIndexNearCenterDraw s.length rand 0).2).1,
      (s.find? fun m => decide (Int.tmod m 12 ∈ cpcs)).map (fun m => Int.tmod m 12),
      ((s.find? fun m => decide (Int.tmod m 12 ∈ cpcs)).map
        (fun m => Int.tmod m 12)).map (fun r => Int.tmod (r + 7) 12),
      (durDraw config.rhythmMode rand (randomIndexNearCenterDraw s.length rand 0).2).2,
      ?_, ?_⟩
    · exact randomIndexNearCenterDraw_lt _ rand 0 hlen
    · simp only [generateMelody, hse, if_false]
      rw [if_neg hcti]
      rfl

theorem generateMelody_length (config : DifficultyConfig) (s cpcs : List ℤ)
    (rand : ℕ → ℚ) (hs : s ≠ []) (hn : 1 ≤ config.noteCount) :
    (generateMelody config s cpcs rand).length = config.noteCount := by
  obtain ⟨ci, d, rPC, fPC, k, hci, heq⟩ := generateMelody_nonempty_shape config s cpcs rand hs
  rw [heq, List.length_cons, walk_length]
  omega

theorem generateMelody_mem (config : DifficultyConfig) (s cpcs : List ℤ)
    (rand : ℕ → ℚ) (hr : ∀ n, 0 ≤ rand n ∧ rand n < 1) (hs : s ≠ []) :
    ∀ note ∈ generateMelody config s cpcs rand, note.midi ∈ s := by
  obtain ⟨ci, d, rPC, fPC, k, hci, heq⟩ := generateMelody_nonempty_shape config s cpcs rand hs
  rw [heq]
  intro note h
  rcases List.mem_cons.mp h with rfl | h'
  · exact getD_mem_of_lt s 0 ci hci
  · exact walk_mem config s cpcs rPC fPC rand hr hs _ _ _ _ note h'

theorem generateMelody_chain (config : DifficultyConfig) (s cpcs : List ℤ)
    (rand : ℕ → ℚ) (hr : ∀ n, 0 ≤ rand n ∧ rand n < 1) (hs : s ≠ []) :
    List.Chain' (fun a b : MelodyNote =>
      (b.midi - a.midi).natAbs ≤ config.maxInterval ∨
      ∀ q ∈ s, ¬ (0 < (q - a.midi).natAbs ∧ (q - a.midi).natAbs ≤ config.maxInterval))
      (generateMelody config s cpcs rand) := by
  obtain ⟨ci, d, rPC, fPC, k, hci, heq⟩ := generateMelody_nonempty_shape config s cpcs rand hs
  rw [heq]
  exact walk_chain config s cpcs rPC fPC rand hr hs _ _ _ _ _ hci

/-- C6 counterexample: the claim fails on both fallback paths. With an empty
scale set and `noteCount = 5` the fixed fragment is only truncated, never
padded: the melody has 4 notes, not 5. With scale set `[60, 70]` and
`maxInterval = 5` every step has zero candidates, so the uniform fallback
picks pitches 10 semitones apart, violating the interval bound; the
exhibited randomness stream lies in `[0, 1)`, so it is a legitimate
`Math.random` outcome. -/
theorem generateMelody_counterexample :
    (generateMelody ⟨5, "major", "C", 100, 7, false, 4⟩ [] [] fun _ => 0).length = 4 ∧
    ¬ (generateMelody ⟨5, "major", "C", 100, 7, false, 4⟩ [] [] fun _ => 0).length = 5 ∧
    generateMelody ⟨3, "major", "C", 100, 5, false, 4⟩ [60, 70] []
      (fun n => if n = 0 then 0 else if n = 1 then 3/4 else 0) =
      [⟨60, none⟩, ⟨70, none⟩, ⟨60, none⟩] ∧
    (∀ n : ℕ, (0 : ℚ) ≤ (if n = 0 then 0 else if n = 1 then (3 : ℚ)/4 else 0) ∧
      (if n = 0 then 0 else if n = 1 then (3 : ℚ)/4 else 0) < 1) ∧
    ((70 : ℤ) - 60).natAbs > 5 := by
  refine ⟨?_, ?_, ?_, ?_, ?_⟩
  · with_unfolding_all rfl
  · with_unfolding_all decide
  · with_unfolding_all rfl
  · intro n
    split_ifs <;> norm_num
  · decide

/-- C6 (amended): `generateMelody` returns `min(noteCount, 4)` notes on the
empty-scale fallback (the fragment is truncated but never padded) and
exactly `noteCount` notes otherwise (for `noteCount ≥ 1`); every pitch is
drawn from the provided scale set (or from the fixed fragment on the
fallback); consecutive pitches are within `maxInterval` semitones except
at steps where no scale pitch at distance in `(0, maxInterval]` exists, in
which case the uniformly random fallback pitch may exceed the bound (the
fragment's own steps are within 2 semitones); and composed with the scale
provider over the fixed range `60 - 8 .. 60 + 12`, every generated pitch
lies in that range. -/
theorem generateMelody_properties (config : DifficultyConfig)
    (scaleNotes chordTonePCs : List ℤ) (rand : ℕ → ℚ) :
    (scaleNotes = [] → (generateMelody config scaleNotes chordTonePCs rand).length =
      min config.noteCount 4) ∧
    (scaleNotes ≠ [] → 1 ≤ config.noteCount →
      (generateMelody config scaleNotes chordTonePCs rand).length = config.noteCount) ∧
    ((∀ n, 0 ≤ rand n ∧ rand n < 1) → scaleNotes ≠ [] →
      ∀ note ∈ generateMelody config scaleNotes chordTonePCs rand,
        note.midi ∈ scaleNotes) ∧
    (scaleNotes = [] →
      (∀ note ∈ generateMelody config scaleNotes chordTonePCs rand,
        note.midi ∈ fallbackFragment) ∧
      List.Chain' (fun a b : MelodyNote => (b.midi - a.midi).natAbs ≤ 2)
        (generateMelody config scaleNotes chordTonePCs rand)) ∧
    ((∀ n, 0 ≤ rand n ∧ rand n < 1) → scaleNotes ≠ [] →
      List.Chain' (fun a b : MelodyNote =>
        (b.midi - a.midi).natAbs ≤ config.maxInterval ∨
        ∀ q ∈ scaleNotes, ¬ (0 < (q - a.midi).natAbs ∧
          (q - a.midi).natAbs ≤ config.maxInterval))
        (generateMelody config scaleNotes chordTonePCs rand)) ∧
    ((∀ n, 0 ≤ rand n ∧ rand n < 1) → ∀ (scalePCs : List ℤ),
      ∀ note ∈ generateMelody config
        (getScaleNotesInRange scalePCs GEN_LOW_MIDI GEN_HIGH_MIDI) chordTonePCs rand,
      GEN_LOW_MIDI ≤ note.midi ∧ note.midi ≤ GEN_HIGH_MIDI) := by
  refine ⟨?_, ?_, ?_, ?_, ?_, ?_⟩
  · rintro rfl
    exact generateMelody_empty_length config chordTonePCs rand
  · intro hs hn
    exact generateMelody_length config scaleNotes chordTonePCs rand hs hn
  · intro hr hs
    exact generateMelody_mem config scaleNotes chordTonePCs rand hr hs
  · rintro rfl
    exact ⟨generateMelody_empty_mem config chordTonePCs rand,
      generateMelody_empty_chain config chordTonePCs rand⟩
  · intro hr hs
    exact generateMelody_chain config scaleNotes chordTonePCs rand hr hs
  · intro hr scalePCs note h
    by_cases hsr : getScaleNotesInRange scalePCs GEN_LOW_MIDI GEN_HIGH_MIDI = []
    · rw [hsr] at h
      have hm := generateMelody_empty_mem config chordTonePCs rand note h
      simp only [fallbackFragment, List.mem_cons, List.not_mem_nil, or_false] at hm
      unfold GEN_LOW_MIDI GEN_HIGH_MIDI
      rcases hm with h' | h' | h' | h' <;> rw [h'] <;> norm_num
    · exact getScaleNotesInRange_mem scalePCs GEN_LOW_MIDI GEN_HIGH_MIDI note.midi
        (generateMelody_mem config _ chordTonePCs rand hr hsr note h)

theorem generateMelody_properties_witness :
    (generateMelody ⟨3, "major", "C", 100, 2, false, 4⟩ [60, 62, 64] [0, 4, 7]
      (fun _ => 1/2)).length = 3 :=
  (generateMelody_properties ⟨3, "major", "C", 100, 2, false, 4⟩ [60, 62, 64] [0, 4, 7]
    (fun _ => 1/2)).2.1 (by decide) (by decide)
